import Mathlib

/-!
chexdump: word grouping and multi-format hex rendering.

A shallow embedding of `src/chexdump.c`, `src/chexdump.h` and `src/cli.c`.

* A `FILE *` opened for writing is modelled by the text written to it so far;
  `fprintf` appends.
* The input pointer `in` is `Option (List Byte)`: `none` is the NULL pointer,
  `some buf` points at an allocation holding exactly the bytes `buf`.
* Every renderer returns `Option FILE`; `none` stands for undefined behaviour
  of the C program (division by zero, a read outside the allocation, signed
  overflow of an `int`).
* `size_t` values are natural numbers (below `2 ^ 64`), `int` values are
  integers; conversions between them are written out.
* Words are read through a cast of `in` to `uintN_t *`, i.e. in the byte order
  of the host; the byte order is a parameter of the model.
-/

namespace Chexdump

/-- An `uint8_t`. -/
abbrev Byte := Fin 256

/-- Text written so far to an output stream. -/
abbrev FILE := String

/-- Byte order of the host the program runs on. -/
inductive Endian where
  | little
  | big
  deriving DecidableEq, Repr

/-- The struct `Chex_Option` of chexdump.h. -/
structure Chex_Option where
  key : String
  value : String
  deriving DecidableEq, Repr

/-- The struct `Chex_Dump` of chexdump.h; `word_size` is a C `int`. -/
structure Chex_Dump where
  basename : String
  options : List Chex_Option
  word_size : Int
  deriving DecidableEq, Repr

/-- Conversion of an `int` to `size_t` (64 bit): reduction modulo `2 ^ 64`. -/
def to_size_t (x : Int) : Nat := (x % 2 ^ 64).toNat

/-- Conversion of a `size_t` to `int` (32 bit, two's complement). -/
def to_int (x : Nat) : Int :=
  let r : Nat := x % 2 ^ 32
  if r < 2 ^ 31 then Int.ofNat r else Int.ofNat r - 2 ^ 32

/-- The function `chex__calc_word_count`:
`(total_size/word_size) + !!(total_size%word_size)`.
Division by zero is undefined (`none`). For `word_size ≥ 1` the sum is at most
`total_size`, so no `size_t` wrap-around can occur. -/
def chex__calc_word_count (word_size total_size : Nat) : Option Nat :=
  if word_size = 0 then none
  else some (total_size / word_size + (if total_size % word_size ≠ 0 then 1 else 0))

/-- The function `chex__get_word_bits`. -/
def chex__get_word_bits (word_size : Nat) : Int :=
  let ret := to_int ((word_size * 8) % 2 ^ 64)
  if word_size ≠ 8 ∧ word_size ≠ 4 ∧ word_size ≠ 2 then 8 else ret

/-- The conversion `%zu` of `printf`: decimal digits of a `size_t`. -/
def fmt_zu (n : Nat) : String := Nat.repr n

/-- The conversion `%d` of `printf`: decimal digits of an `int`, with a minus
sign when negative. -/
def fmt_d (n : Int) : String :=
  match n with
  | Int.ofNat m => Nat.repr m
  | Int.negSucc m => "-" ++ Nat.repr (m + 1)

/-- The conversions `%x`, `%02x`, `%04x`, `%08x`, `%016llx` of `printf` applied
to an unsigned value: the lowercase hexadecimal digits of `n` (at least one),
left-padded with `0` up to the minimum field width (`width = 0` for `%x`). -/
def fmt_hex (width n : Nat) : String :=
  let ds := Nat.toDigits 16 n
  String.mk (List.replicate (width - ds.length) '0' ++ ds)

/-- The `len` bytes at offset `off` of the allocation `mem` points at; `none`
when `mem` is NULL or the range leaves the allocation. -/
def read_bytes (mem : Option (List Byte)) (off len : Nat) : Option (List Byte) :=
  match mem with
  | none => none
  | some buf => if off + len ≤ buf.length then some ((buf.drop off).take len) else none

/-- Value of a byte sequence read as a little-endian unsigned integer. -/
def le_value : List Byte → Nat
  | [] => 0
  | b :: bs => b.val + 256 * le_value bs

/-- Value of a byte sequence read as an unsigned integer in host byte order. -/
def word_value (e : Endian) (bs : List Byte) : Nat :=
  match e with
  | Endian.little => le_value bs
  | Endian.big => le_value bs.reverse

/-- The expression `words[i]` for `words = (uintN_t*)in` with `N = 8 * ws`. -/
def load_word (e : Endian) (mem : Option (List Byte)) (ws i : Nat) : Option Nat :=
  (read_bytes mem (i * ws) ws).map (word_value e)

/-- The largest value of a C `int` (32 bit). -/
def INT_MAX : Nat := 2147483647

/-- One of the four `for (int i = 0; i < word_count; ++i)` loops of
`chex_dump_words`, for words of `ws` bytes printed with `width` hex digits and a
line break after every `per_row` words. The first numeric argument is the number
of iterations left (`word_count - i`), the second is `i`. The counter `i` is a C
`int`: evaluating `i + 1` (in the row test and in `++i`) when `i` is `INT_MAX` is
a signed overflow, which is undefined. -/
def dump_loop (e : Endian) (mem : Option (List Byte)) (ws width per_row : Nat)
    (word_pfx separator : String) : Nat → Nat → FILE → Option FILE
  | 0, _, out => some out
  | n + 1, i, out =>
    match load_word e mem ws i with
    | none => none
    | some w =>
      let out1 := out ++ (word_pfx ++ fmt_hex width w ++ separator)
      if INT_MAX < i + 1 then none
      else
        let out2 := if (i + 1) % per_row = 0 then out1 ++ "\n" else out1
        dump_loop e mem ws width per_row word_pfx separator n (i + 1) out2

/-- The function `chex_dump_words`. -/
def chex_dump_words (e : Endian) (info : Chex_Dump) (mem : Option (List Byte))
    (in_size : Nat) (out : FILE) (word_pfx separator : String) : Option FILE :=
  match chex__calc_word_count (to_size_t info.word_size) in_size with
  | none => none
  | some word_count =>
    if info.word_size = 8 then
      dump_loop e mem 8 16 4 word_pfx separator word_count 0 out
    else if info.word_size = 4 then
      dump_loop e mem 4 8 8 word_pfx separator word_count 0 out
    else if info.word_size = 2 then
      dump_loop e mem 2 4 8 word_pfx separator word_count 0 out
    else
      dump_loop e mem 1 2 16 word_pfx separator word_count 0 out

/-- The function `chex_dump_c__any`. -/
def chex_dump_c__any (e : Endian) (info : Chex_Dump) (mem : Option (List Byte))
    (in_size : Nat) (out : FILE) (pfx : String) : Option FILE :=
  match chex__calc_word_count (to_size_t info.word_size) in_size with
  | none => none
  | some word_count =>
    let out1 :=
      if info.word_size = 8 then
        out ++ (pfx ++ "uint64_t " ++ info.basename ++ "[" ++ fmt_zu word_count ++ "] = \x7b\n")
      else if info.word_size = 4 then
        out ++ (pfx ++ "uint32_t " ++ info.basename ++ "[" ++ fmt_zu word_count ++ "] = \x7b\n")
      else if info.word_size = 2 then
        out ++ (pfx ++ "uint16_t " ++ info.basename ++ "[" ++ fmt_zu word_count ++ "] = \x7b\n")
      else
        out ++ (pfx ++ "uint8_t " ++ info.basename ++ "[" ++ fmt_zu word_count ++ "] = \x7b\n")
    match chex_dump_words e info mem in_size out1 "0x" "," with
    | none => none
    | some out2 => some (out2 ++ "\n\x7d;\n")

/-- The function `chex_dump_c_extern`. -/
def chex_dump_c_extern (info : Chex_Dump) (_mem : Option (List Byte))
    (in_size : Nat) (out : FILE) : Option FILE :=
  match chex__calc_word_count (to_size_t info.word_size) in_size with
  | none => none
  | some word_count =>
    let word_size := chex__get_word_bits (to_size_t info.word_size)
    let out1 := out ++ ("extern uint" ++ fmt_d word_size ++ "_t " ++ info.basename ++ "["
      ++ fmt_zu word_count ++ "];\n")
    some (out1 ++ ("static const size_t " ++ info.basename ++ "_SIZE = " ++ fmt_zu in_size
      ++ ";\n"))

/-- The function `chex_dump_c_source`. -/
def chex_dump_c_source (e : Endian) (info : Chex_Dump) (mem : Option (List Byte))
    (in_size : Nat) (out : FILE) : Option FILE :=
  chex_dump_c__any e info mem in_size out ""

/-- The function `chex_dump_c_static`. -/
def chex_dump_c_static (e : Endian) (info : Chex_Dump) (mem : Option (List Byte))
    (in_size : Nat) (out : FILE) : Option FILE :=
  let out1 := out ++ ("static const size_t " ++ info.basename ++ "_SIZE = " ++ fmt_zu in_size
    ++ ";\n")
  chex_dump_c__any e info mem in_size out1 "static const "

/-- The function `chex_dump_zig`. -/
def chex_dump_zig (e : Endian) (info : Chex_Dump) (mem : Option (List Byte))
    (in_size : Nat) (out : FILE) : Option FILE :=
  let word_size := chex__get_word_bits (to_size_t info.word_size)
  let out1 := out ++ ("const " ++ info.basename ++ " [" ++ fmt_zu in_size ++ "]u"
    ++ fmt_d word_size ++ " = \x7b\n")
  match chex_dump_words e info mem in_size out1 "0x" "," with
  | none => none
  | some out2 => some (out2 ++ "\n\x7d;\n")

/-- The loop `for (size_t i = 0; i < in_size; ++i) fprintf(out, "%x", data[i]);`
of `chex_dump_long`; first the iterations left, then `i`. -/
def long_loop (mem : Option (List Byte)) : Nat → Nat → FILE → Option FILE
  | 0, _, out => some out
  | n + 1, i, out =>
    match read_bytes mem i 1 with
    | none => none
    | some bs => long_loop mem n (i + 1) (out ++ fmt_hex 0 (le_value bs))

/-- The function `chex_dump_long`. -/
def chex_dump_long (_info : Chex_Dump) (mem : Option (List Byte))
    (in_size : Nat) (out : FILE) : Option FILE :=
  long_loop mem in_size 0 out

/-- The enum `Chex_Format` of chexdump.h, by its numeric value (an enum without
negative enumerators is compared as an unsigned number). -/
abbrev Chex_Format := Nat

/-- The enumerator `CHEX_FORMAT_LONG`. -/
def CHEX_FORMAT_LONG : Chex_Format := 0

/-- The enumerator `CHEX_FORMAT_C_EXTERN_HEADER`. -/
def CHEX_FORMAT_C_EXTERN_HEADER : Chex_Format := 1

/-- The enumerator `CHEX_FORMAT_C_SOURCE`. -/
def CHEX_FORMAT_C_SOURCE : Chex_Format := 2

/-- The enumerator `CHEX_FORMAT_C_STATIC`. -/
def CHEX_FORMAT_C_STATIC : Chex_Format := 3

/-- The enumerator `CHEX_FORMAT_ZIG`. -/
def CHEX_FORMAT_ZIG : Chex_Format := 4

/-- The enumerator `CHEX_FORMAT__COUNT`. -/
def CHEX_FORMAT__COUNT : Chex_Format := 5

/-- The type `Chex_Dump_Func` of chexdump.h. -/
abbrev Chex_Dump_Func := Chex_Dump → Option (List Byte) → Nat → FILE → Option FILE

/-- The table built by the macro `CHEX_FORMAT__HOOKS`: entry `i` of the array, for
`i < CHEX_FORMAT__COUNT`; `none` is a null function pointer. -/
def CHEX_FORMAT__HOOKS (e : Endian) (i : Chex_Format) : Option Chex_Dump_Func :=
  if i = CHEX_FORMAT_LONG then some chex_dump_long
  else if i = CHEX_FORMAT_C_EXTERN_HEADER then some chex_dump_c_extern
  else if i = CHEX_FORMAT_C_SOURCE then some (chex_dump_c_source e)
  else if i = CHEX_FORMAT_C_STATIC then some (chex_dump_c_static e)
  else if i = CHEX_FORMAT_ZIG then some (chex_dump_zig e)
  else none

/-- The function `chex_dump`:
`if ((format < CHEX_FORMAT__COUNT) && hooks[format]) hooks[format](info, in, in_size, out);` -/
def chex_dump (e : Endian) (info : Chex_Dump) (mem : Option (List Byte))
    (in_size : Nat) (out : FILE) (format : Chex_Format) : Option FILE :=
  if format < CHEX_FORMAT__COUNT then
    match CHEX_FORMAT__HOOKS e format with
    | some hook => hook info mem in_size out
    | none => some out
  else some out

/-! The command line program, `src/cli.c`. Standard output is the text printed so
far; `perror` calls are recorded by their message argument. Each `Char` of an
argument string stands for one C `char`. -/

/-- The table built by the macro `CHEX_FORMAT__NAMES`: entry `i` of the array;
`none` outside the array. -/
def CHEX_FORMAT__NAMES (i : Chex_Format) : Option String :=
  if i = CHEX_FORMAT_LONG then some "long"
  else if i = CHEX_FORMAT_C_EXTERN_HEADER then some "c-extern"
  else if i = CHEX_FORMAT_C_SOURCE then some "c-source"
  else if i = CHEX_FORMAT_C_STATIC then some "c-static"
  else if i = CHEX_FORMAT_ZIG then some "zig"
  else none

/-- The table built by the macro `CHEX_FORMAT__DESCRIPTIONS`. -/
def CHEX_FORMAT__DESCRIPTIONS (i : Chex_Format) : Option String :=
  if i = CHEX_FORMAT_LONG then some "Long one-line string of hex characters"
  else if i = CHEX_FORMAT_C_EXTERN_HEADER then some "C header extern declaration"
  else if i = CHEX_FORMAT_C_SOURCE then some "C source definition"
  else if i = CHEX_FORMAT_C_STATIC then some "C static definition"
  else if i = CHEX_FORMAT_ZIG then some "Zig array"
  else none

/-- The function `pad_to_alignment` of cli.c; `x % 0` is undefined. -/
def pad_to_alignment (x alignment : Nat) : Option Nat :=
  if alignment = 0 then none
  else
    let m := x % alignment
    if m ≠ 0 then some (x + (alignment - m)) else some x

/-- The loop of `print_usage` over the formats; first the iterations left, then `i`. -/
def usage_formats : Nat → Chex_Format → String
  | 0, _ => ""
  | n + 1, i =>
    "\t" ++ (CHEX_FORMAT__NAMES i).getD "" ++ ": " ++ (CHEX_FORMAT__DESCRIPTIONS i).getD ""
      ++ "\n" ++ usage_formats n (i + 1)

/-- The text printed by `print_usage`. -/
def print_usage : String :=
  "chex [options...] format infile\n"
    ++ "\nOptions:\n"
    ++ "\t-h,--help: Show this help and exit\n"
    ++ "\t-wordsize <value>: Set word size in bytes. Supported sizes: 1, 2, 4, 8\n"
    ++ "\t-caps: Capitilize variable names\n"
    ++ "\t-name <value>: Set base name for variables\n"
    ++ "\t-prefix <string>: Prefix variable names with string\n"
    ++ "\nFormats:\n"
    ++ usage_formats CHEX_FORMAT__COUNT 0

/-- What a run of `main` has produced when it returns. -/
structure Exit where
  stdout : String
  perror : List String
  code : Int
  deriving DecidableEq, Repr

/-- The local variables of `main` that option parsing sets: the remaining
arguments (`argc`/`argv`), `info.word_size`, `flags.caps`, `args[ARG_PREFIX]` and
`args[ARG_NAME]` (`none` is NULL). -/
structure Cli_State where
  argv : List String
  word_size : Int
  caps : Bool
  args_pfx : Option String
  args_name : Option String
  deriving DecidableEq, Repr

/-- Either `main` has returned, or it goes on with the given variables. -/
inductive Outcome where
  | returned (r : Exit)
  | running (st : Cli_State)
  deriving DecidableEq, Repr

/-- The loop `while (argc && argv[0][0] == '-')` of `main` (lines 84 to 138) over
the remaining arguments; `atoi` is the C library function. -/
def parse_options (atoi : String → Int) : List String → Cli_State → Outcome
  | [], st => Outcome.running (Cli_State.mk [] st.word_size st.caps st.args_pfx st.args_name)
  | a :: rest, st =>
    if a.data.head? ≠ some '-' then
      Outcome.running (Cli_State.mk (a :: rest) st.word_size st.caps st.args_pfx st.args_name)
    else if a = "--help" ∨ a = "-h" then
      Outcome.returned (Exit.mk print_usage [] 0)
    else if a = "-wordsize" then
      match rest with
      | [] => Outcome.returned (Exit.mk print_usage [] 1)
      | v :: rest2 =>
        if atoi v ≠ 8 ∧ atoi v ≠ 4 ∧ atoi v ≠ 2 ∧ atoi v ≠ 1 then
          Outcome.returned (Exit.mk ("Unsupported word size " ++ v ++ "\n") [] 1)
        else
          parse_options atoi rest2 (Cli_State.mk rest2 (atoi v) st.caps st.args_pfx st.args_name)
    else if a = "-caps" then
      parse_options atoi rest (Cli_State.mk rest st.word_size true st.args_pfx st.args_name)
    else if a = "-prefix" then
      match rest with
      | [] => Outcome.returned (Exit.mk print_usage [] 1)
      | v :: rest2 =>
        parse_options atoi rest2 (Cli_State.mk rest2 st.word_size st.caps (some v) st.args_name)
    else if a = "-name" then
      match rest with
      | [] => Outcome.returned (Exit.mk print_usage [] 1)
      | v :: rest2 =>
        parse_options atoi rest2 (Cli_State.mk rest2 st.word_size st.caps st.args_pfx (some v))
    else
      Outcome.returned (Exit.mk ("Unrecognised argument: " ++ a ++ "\n") [] 1)

/-- The loop of `main` that looks the format name up (lines 145 to 151); first
the iterations left, then `i`. -/
def find_format_loop (arg : String) : Nat → Chex_Format → Chex_Format
  | 0, _ => CHEX_FORMAT__COUNT
  | n + 1, i => if CHEX_FORMAT__NAMES i = some arg then i else find_format_loop arg n (i + 1)

/-- The format `main` selects for a format argument. -/
def find_format (arg : String) : Chex_Format := find_format_loop arg CHEX_FORMAT__COUNT 0

/-- The C library function `isalnum` in the "C" locale. -/
def isalnum (c : Char) : Bool :=
  (48 ≤ c.toNat ∧ c.toNat ≤ 57) ∨ (65 ≤ c.toNat ∧ c.toNat ≤ 90) ∨ (97 ≤ c.toNat ∧ c.toNat ≤ 122)

/-- The C library function `toupper` in the "C" locale. -/
def toupper (c : Char) : Char :=
  if 97 ≤ c.toNat ∧ c.toNat ≤ 122 then Char.ofNat (c.toNat - 32) else c

/-- One step of the two name loops of `main` (lines 180 to 187). -/
def sanitize (caps : Bool) (c : Char) : Char :=
  if caps then (if ¬ isalnum c then '_' else toupper c)
  else (if ¬ isalnum c then '_' else c)

/-- The block of `main` that fills `char basename[512]` (lines 168 to 189): the
prefix argument copied as it is, then the name argument or else the input file
name, sanitized. Writing past the array is undefined. -/
def make_basename (st : Cli_State) (file : String) : Option String :=
  let copied : List Char := match st.args_pfx with
    | some p => p.data
    | none => []
  let source : String := match st.args_name with
    | some n => n
    | none => file
  let chars := copied ++ source.data.map (sanitize st.caps)
  if chars.length < 512 then some (String.mk chars) else none

/-- A fresh allocation of `n` bytes returned by `malloc`; its content is whatever
the heap holds (`heap`). -/
def malloc (heap : Nat → Byte) (n : Nat) : List Byte := (List.range n).map heap

/-- The C library function `memset(buffer + off, v, n)`; writing outside the
allocation is undefined. -/
def memset (buffer : List Byte) (off : Nat) (v : Byte) (n : Nat) : Option (List Byte) :=
  if off + n ≤ buffer.length then
    some (buffer.take off ++ List.replicate n v ++ buffer.drop (off + n))
  else none

/-- The expression `st.st_size - ((st.st_size/info.word_size)*info.word_size)` that
`main` stores in `padding_bytes`. -/
def padding_bytes (st_size : Nat) (word_size : Int) : Nat :=
  to_size_t ((st_size : Int) - ((st_size : Int) / word_size) * word_size)

/-- Lines 205 to 208 of `main`: allocate the padded buffer and zero
`padding_bytes` bytes from offset `st_size` on. -/
def prepare_buffer (heap : Nat → Byte) (st_size : Nat) (word_size : Int) :
    Option (List Byte) :=
  match pad_to_alignment st_size (to_size_t word_size) with
  | none => none
  | some padded_size =>
    let buffer := malloc heap padded_size
    if padding_bytes st_size word_size ≠ 0 then
      memset buffer st_size 0 (padding_bytes st_size word_size)
    else some buffer

/-- The call `fread(buffer, size, 1, infile)`: the first `size` bytes of the buffer
are replaced by the file bytes; a NULL stream is undefined. -/
def fread (buffer : List Byte) (size : Nat) (infile : Option (List Byte)) :
    Option (List Byte) :=
  match infile with
  | none => none
  | some data => some (data.take size ++ buffer.drop (min size data.length))

/-- The rest of `main` once the options are parsed (lines 140 to 217). `stat`
gives the size of a file that can be examined, `fopen` the bytes of a file that
can be opened. -/
def main_after_options (stat : String → Option Nat) (fopen : String → Option (List Byte))
    (heap : Nat → Byte) (e : Endian) (st : Cli_State) : Option Exit :=
  match st.argv with
  | [] => some (Exit.mk print_usage [] 1)
  | [_] => some (Exit.mk print_usage [] 1)
  | fmt :: file :: _ =>
    let format := find_format fmt
    if format = CHEX_FORMAT__COUNT then
      some (Exit.mk ("Unrecognised format: " ++ fmt ++ "\n") [] 1)
    else
      match stat file with
      | none => some (Exit.mk "" ["Could not stat input file"] 1)
      | some st_size =>
        match make_basename st file with
        | none => none
        | some basename =>
          let info := Chex_Dump.mk basename [] st.word_size
          if format = CHEX_FORMAT_C_EXTERN_HEADER then
            match chex_dump e info none st_size "" format with
            | none => none
            | some out => some (Exit.mk out [] 0)
          else
            let infile := fopen file
            if infile.isSome then
              some (Exit.mk "" ["Failed to open input file for reading"] 1)
            else
              match prepare_buffer heap st_size st.word_size with
              | none => none
              | some buffer =>
                match fread buffer st_size infile with
                | none => none
                | some buffer2 =>
                  match chex_dump e info (some buffer2) st_size "" format with
                  | none => none
                  | some out => some (Exit.mk out [] 0)

/-- The function `main` of cli.c on the arguments after the program name.
`caps0` is the value the uninitialised `flags.caps` happens to hold. -/
def main (atoi : String → Int) (caps0 : Bool) (stat : String → Option Nat)
    (fopen : String → Option (List Byte)) (heap : Nat → Byte) (e : Endian)
    (args : List String) : Option Exit :=
  if args.length + 1 < 3 then some (Exit.mk print_usage [] 1)
  else
    match parse_options atoi args (Cli_State.mk args 1 caps0 none none) with
    | Outcome.returned r => some r
    | Outcome.running st => main_after_options stat fopen heap e st

/-- The digits loop of `libc_atoi`. -/
def atoi_digits : Int → List Char → Int
  | acc, [] => acc
  | acc, c :: cs =>
    if 48 ≤ c.toNat ∧ c.toNat ≤ 57 then atoi_digits (10 * acc + ((c.toNat : Int) - 48)) cs
    else acc

/-- The C library function `atoi` (for values in the range of `int`): leading
white space, an optional sign, decimal digits. -/
def libc_atoi (s : String) : Int :=
  match s.data.dropWhile (fun c => c = ' ' ∨ (9 ≤ c.toNat ∧ c.toNat ≤ 13)) with
  | '-' :: cs => - atoi_digits 0 cs
  | '+' :: cs => atoi_digits 0 cs
  | cs => atoi_digits 0 cs

/-! Vocabulary of the statements -/

/-- Integer ceiling of `n / w`, written `(n + w - 1) / w`. -/
def ceil_div (n w : Nat) : Nat := (n + w - 1) / w

/-- Concatenation of a list of texts, in order. -/
def concat : List String → String
  | [] => ""
  | s :: ss => s ++ concat ss

/-- The word of `ws` bytes at index `i` of the buffer `buf`, in host byte order. -/
def word_at (e : Endian) (buf : List Byte) (ws i : Nat) : Nat :=
  word_value e ((buf.drop (i * ws)).take ws)

/-- The line break that follows the `k`-th token when `k` is a multiple of
`per_row`, and nothing otherwise. -/
def row_break (per_row k : Nat) : String := if k % per_row = 0 then "\n" else ""

/-- The token written for word `i`: word prefix, hex digits, separator. -/
def token (e : Endian) (buf : List Byte) (ws : Nat) (word_pfx separator : String)
    (i : Nat) : String :=
  word_pfx ++ fmt_hex (2 * ws) (word_at e buf ws i) ++ separator

/-- Row length named by the specification: 4 tokens for 8-byte words, 8 for
4-byte and 2-byte words, 16 for 1-byte words. -/
def row_len (ws : Nat) : Nat := if ws = 8 then 4 else if ws = 4 ∨ ws = 2 then 8 else 16

/-- The tokens of the words with indices `is`, each followed by its row break. -/
def tokens_text (e : Endian) (buf : List Byte) (ws : Nat) (word_pfx separator : String)
    (is : List Nat) : String :=
  concat (is.map (fun i => token e buf ws word_pfx separator i ++ row_break (row_len ws) (i + 1)))

/-- Value of one hexadecimal digit character, `none` for any other character. -/
def hex_digit_value (c : Char) : Option Nat :=
  if 48 ≤ c.toNat ∧ c.toNat ≤ 57 then some (c.toNat - 48)
  else if 97 ≤ c.toNat ∧ c.toNat ≤ 102 then some (c.toNat - 87)
  else if 65 ≤ c.toNat ∧ c.toNat ≤ 70 then some (c.toNat - 55)
  else none

/-- Reading of hexadecimal digits, most significant first, onto an accumulator. -/
def parse_hex_aux : Nat → List Char → Option Nat
  | acc, [] => some acc
  | acc, c :: cs =>
    match hex_digit_value c with
    | none => none
    | some d => parse_hex_aux (16 * acc + d) cs

/-- The number a non-empty sequence of hexadecimal digits denotes. -/
def parse_hex (cs : List Char) : Option Nat :=
  if cs = [] then none else parse_hex_aux 0 cs

/-- The lowercase hexadecimal digits. -/
def lower_hex_digits : List Char := "0123456789abcdef".data

/-- The pieces of a text between its commas. -/
def split_commas : List Char → List (List Char)
  | [] => [[]]
  | c :: cs =>
    if c = ',' then [] :: split_commas cs
    else
      match split_commas cs with
      | [] => [[c]]
      | t :: ts => (c :: t) :: ts

/-- A token without its leading "0x"; `none` when it does not start with "0x". -/
def strip_0x : List Char → Option (List Char)
  | '0' :: 'x' :: r => some r
  | _ => none

/-- The numbers denoted by a list of tokens "0x" + hexadecimal digits. -/
def decode_tokens : List (List Char) → Option (List Nat)
  | [] => some []
  | t :: ts =>
    match (strip_0x t).bind parse_hex with
    | none => none
    | some v => (decode_tokens ts).map (fun vs => v :: vs)

/-- The `k` low bytes of `v`, least significant first. -/
def le_bytes : Nat → Nat → List Byte
  | 0, _ => []
  | k + 1, v => (⟨v % 256, Nat.mod_lt v (by decide)⟩ : Byte) :: le_bytes k (v / 256)

/-- The bytes of `v` stored as a word of `ws` bytes in host byte order. -/
def store_word (e : Endian) (ws v : Nat) : List Byte :=
  match e with
  | Endian.little => le_bytes ws v
  | Endian.big => (le_bytes ws v).reverse

/-- Reading back the body of an array literal, as the specification words it: drop
the line breaks, split on ",", (the empty piece after the last "," is no token),
strip "0x", parse each token as a hexadecimal number, store each number as a word
of `ws` bytes in host byte order. -/
def decode_body (e : Endian) (ws : Nat) (body : String) : Option (List Byte) :=
  let cs := body.data.filter (fun c => decide (c ≠ '\n'))
  let pieces := (split_commas cs).filter (fun t => decide (t ≠ []))
  (decode_tokens pieces).map (fun vs => vs.flatMap (store_word e ws))

/-- Effective element width in bits, as the specification words it: `word_size * 8`
if `word_size` is 1, 2, 4 or 8, otherwise 8. -/
def effective_bits (ws : Int) : Int :=
  if ws = 1 ∨ ws = 2 ∨ ws = 4 ∨ ws = 8 then ws * 8 else 8

/-- Effective element width in bytes: `effective_bits / 8`. -/
def effective_bytes (ws : Int) : Nat := (effective_bits ws / 8).toNat

/-! Auxiliary lemmas -/

theorem to_size_t_of_nonneg (x : Int) (h0 : 0 ≤ x) (h1 : x < 2 ^ 64) :
    to_size_t x = x.toNat := by
  unfold to_size_t
  rw [Int.emod_eq_of_lt h0 h1]

theorem calc_word_count_eq (w n : Nat) (hw : 1 ≤ w) :
    chex__calc_word_count w n = some (ceil_div n w) := by
  unfold chex__calc_word_count ceil_div
  have hw0 : w ≠ 0 := by omega
  rw [if_neg hw0]
  congr 1
  have hpos : 0 < w := hw
  have hdm := Nat.div_add_mod n w
  have hlt := Nat.mod_lt n hpos
  by_cases hm : n % w = 0
  · rw [if_neg (by simpa using hm)]
    have h2 : n + w - 1 = (w - 1) + w * (n / w) := by omega
    have h3 : (w - 1) / w = 0 := Nat.div_eq_of_lt (by omega)
    rw [h2, Nat.add_mul_div_left _ _ hpos, h3]
    omega
  · rw [if_pos hm]
    have h2 : n + w - 1 = (n % w - 1 + w) + w * (n / w) := by omega
    have h4 : (n % w - 1) / w = 0 := Nat.div_eq_of_lt (by omega)
    have h3 : (n % w - 1 + w) / w = 1 := by
      rw [Nat.add_div_right _ hpos, h4]
    rw [h2, Nat.add_mul_div_left _ _ hpos, h3]
    omega

theorem ceil_div_mul_ge (w n : Nat) (hw : 1 ≤ w) : n ≤ ceil_div n w * w := by
  unfold ceil_div
  have hpos : 0 < w := hw
  have hdm := Nat.div_add_mod (n + w - 1) w
  have hlt := Nat.mod_lt (n + w - 1) hpos
  rw [Nat.mul_comm]
  generalize (n + w - 1) / w = q at hdm
  generalize (n + w - 1) % w = r at hdm hlt
  generalize w * q = p at hdm
  omega

theorem ceil_div_least (w n c : Nat) (hw : 1 ≤ w) (h : n ≤ c * w) : ceil_div n w ≤ c := by
  unfold ceil_div
  have hpos : 0 < w := hw
  have h1 : (n + w - 1) / w ≤ (c * w + (w - 1)) / w := Nat.div_le_div_right (by omega)
  have h3 : (w - 1) / w = 0 := Nat.div_eq_of_lt (by omega)
  have h2 : (c * w + (w - 1)) / w = c := by
    rw [Nat.mul_comm, Nat.add_comm, Nat.add_mul_div_left _ _ hpos, h3]
    omega
  omega

theorem concat_append (xs ys : List String) : concat (xs ++ ys) = concat xs ++ concat ys := by
  induction xs with
  | nil => simp [concat]
  | cons x xs ih => simp [concat, ih, String.append_assoc]

theorem load_word_some (e : Endian) (buf : List Byte) (ws i : Nat)
    (h : (i + 1) * ws ≤ buf.length) :
    load_word e (some buf) ws i = some (word_at e buf ws i) := by
  unfold load_word read_bytes word_at
  have h2 : i * ws + ws ≤ buf.length := by
    have : (i + 1) * ws = i * ws + ws := Nat.succ_mul i ws
    omega
  simp [h2]

theorem dump_loop_eq (e : Endian) (buf : List Byte) (ws width per_row : Nat)
    (word_pfx separator : String) :
    ∀ (n i : Nat) (out : FILE), (i + n) * ws ≤ buf.length → i + n ≤ INT_MAX →
      dump_loop e (some buf) ws width per_row word_pfx separator n i out
        = some (out ++ concat ((List.range' i n).map (fun j =>
            (word_pfx ++ fmt_hex width (word_at e buf ws j) ++ separator)
              ++ row_break per_row (j + 1)))) := by
  intro n
  induction n with
  | zero => intro i out _ _; simp [dump_loop, concat]
  | succ n ih =>
    intro i out h hmax
    have hl : (i + 1) * ws ≤ buf.length :=
      le_trans (Nat.mul_le_mul_right ws (by omega)) h
    have hr : (i + 1 + n) * ws ≤ buf.length := by
      have : i + 1 + n = i + (n + 1) := by omega
      rw [this]; exact h
    have hno : ¬ INT_MAX < i + 1 := by omega
    simp only [dump_loop, load_word_some e buf ws i hl, if_neg hno]
    rw [ih (i + 1) _ hr (by omega), List.range'_succ, List.map_cons, concat]
    unfold row_break
    by_cases hb : (i + 1) % per_row = 0
    · simp only [if_pos hb, String.append_assoc]
    · simp only [if_neg hb, String.append_assoc, String.append_empty]

theorem dump_loop_overflow (e : Endian) (mem : Option (List Byte)) (ws width per_row : Nat)
    (word_pfx separator : String) :
    ∀ (n i : Nat) (out : FILE), i ≤ INT_MAX → INT_MAX < i + n →
      dump_loop e mem ws width per_row word_pfx separator n i out = none := by
  intro n
  induction n with
  | zero => intro i out h1 h2; omega
  | succ n ih =>
    intro i out h1 h2
    simp only [dump_loop]
    cases load_word e mem ws i with
    | none => rfl
    | some w =>
      simp only []
      by_cases hov : INT_MAX < i + 1
      · rw [if_pos hov]
      · rw [if_neg hov]
        exact ih (i + 1) _ (by omega) (by omega)

theorem word_size_cases (info : Chex_Dump)
    (hws : info.word_size = 1 ∨ info.word_size = 2 ∨ info.word_size = 4 ∨ info.word_size = 8) :
    (info.word_size.toNat = 1 ∨ info.word_size.toNat = 2 ∨ info.word_size.toNat = 4
      ∨ info.word_size.toNat = 8)
    ∧ to_size_t info.word_size = info.word_size.toNat
    ∧ info.word_size = (info.word_size.toNat : Int) := by
  rcases hws with h | h | h | h <;> rw [h] <;> decide

theorem chex_dump_words_eq (e : Endian) (info : Chex_Dump) (buf : List Byte)
    (in_size : Nat) (out : FILE) (word_pfx separator : String)
    (hws : info.word_size = 1 ∨ info.word_size = 2 ∨ info.word_size = 4 ∨ info.word_size = 8)
    (hpad : ceil_div in_size info.word_size.toNat * info.word_size.toNat ≤ buf.length)
    (hcnt : ceil_div in_size info.word_size.toNat ≤ INT_MAX) :
    chex_dump_words e info (some buf) in_size out word_pfx separator
      = some (out ++ tokens_text e buf info.word_size.toNat word_pfx separator
          (List.range (ceil_div in_size info.word_size.toNat))) := by
  obtain ⟨_, hsz, _⟩ := word_size_cases info hws
  unfold chex_dump_words tokens_text token
  rw [hsz, List.range_eq_range']
  rcases hws with h | h | h | h <;> rw [h] at hpad hcnt ⊢ <;>
    simp only [Int.toNat_ofNat, Int.toNat_one] at hpad hcnt ⊢ <;>
    rw [calc_word_count_eq _ _ (by decide)] <;>
    simp only [Int.reduceEq, if_false, if_true, reduceIte] <;>
    rw [dump_loop_eq _ _ _ _ _ _ _ _ _ _ (by simpa using hpad) (by simpa using hcnt)] <;>
    rfl

theorem dump_loop_append (e : Endian) (mem : Option (List Byte)) (ws width per_row : Nat)
    (word_pfx separator : String) :
    ∀ (n i : Nat) (out : FILE),
      dump_loop e mem ws width per_row word_pfx separator n i out
        = (dump_loop e mem ws width per_row word_pfx separator n i "").map (fun s => out ++ s) := by
  intro n
  induction n with
  | zero => intro i out; simp [dump_loop]
  | succ n ih =>
    intro i out
    simp only [dump_loop]
    cases load_word e mem ws i with
    | none => rfl
    | some w =>
      simp only []
      by_cases hov : INT_MAX < i + 1
      · rw [if_pos hov, if_pos hov]
        rfl
      · rw [if_neg hov, if_neg hov]
        rw [ih (i + 1) (if (i + 1) % per_row = 0
              then out ++ (word_pfx ++ fmt_hex width w ++ separator) ++ "\n"
              else out ++ (word_pfx ++ fmt_hex width w ++ separator)),
            ih (i + 1) (if (i + 1) % per_row = 0
              then "" ++ (word_pfx ++ fmt_hex width w ++ separator) ++ "\n"
              else "" ++ (word_pfx ++ fmt_hex width w ++ separator)),
            Option.map_map]
        congr 1
        funext s
        by_cases hb : (i + 1) % per_row = 0
        · simp only [if_pos hb, Function.comp, String.append_assoc, String.empty_append]
        · simp only [if_neg hb, Function.comp, String.append_assoc, String.empty_append]

theorem chex_dump_words_append (e : Endian) (info : Chex_Dump) (mem : Option (List Byte))
    (in_size : Nat) (out : FILE) (word_pfx separator : String) :
    chex_dump_words e info mem in_size out word_pfx separator
      = (chex_dump_words e info mem in_size "" word_pfx separator).map (fun s => out ++ s) := by
  unfold chex_dump_words
  cases chex__calc_word_count (to_size_t info.word_size) in_size with
  | none => rfl
  | some wc =>
    simp only []
    split_ifs <;> exact dump_loop_append _ _ _ _ _ _ _ _ _ _

theorem chex_dump_c__any_append (e : Endian) (info : Chex_Dump) (mem : Option (List Byte))
    (in_size : Nat) (out : FILE) (pfx : String) :
    chex_dump_c__any e info mem in_size out pfx
      = (chex_dump_c__any e info mem in_size "" "").map (fun s => out ++ pfx ++ s) := by
  unfold chex_dump_c__any
  cases chex__calc_word_count (to_size_t info.word_size) in_size with
  | none => rfl
  | some wc =>
    simp only []
    rw [chex_dump_words_append e info mem in_size (ite _ _ _),
      chex_dump_words_append e info mem in_size (ite (info.word_size = 8) ("" ++ _) _)]
    cases chex_dump_words e info mem in_size "" "0x" "," with
    | none => rfl
    | some body =>
      simp only [Option.map_some']
      split_ifs <;> simp only [String.append_assoc, String.empty_append]

theorem get_word_bits_valid (info : Chex_Dump)
    (hws : info.word_size = 1 ∨ info.word_size = 2 ∨ info.word_size = 4 ∨ info.word_size = 8) :
    chex__get_word_bits (to_size_t info.word_size) = 8 * info.word_size := by
  rcases hws with h | h | h | h <;> rw [h] <;> decide

theorem digitChar_lower (k : Nat) (hk : k < 16) : Nat.digitChar k ∈ lower_hex_digits := by
  interval_cases k <;> decide

theorem digitChar_value (k : Nat) (hk : k < 16) : hex_digit_value (Nat.digitChar k) = some k := by
  interval_cases k <;> decide

theorem toDigitsCore_append (fuel : Nat) :
    ∀ (n : Nat) (ds : List Char),
      Nat.toDigitsCore 16 fuel n ds = Nat.toDigitsCore 16 fuel n [] ++ ds := by
  induction fuel with
  | zero => intro n ds; simp [Nat.toDigitsCore]
  | succ f ih =>
    intro n ds
    simp only [Nat.toDigitsCore]
    by_cases h0 : n / 16 = 0
    · simp [h0]
    · simp only [if_neg h0]
      rw [ih (n / 16) (Nat.digitChar (n % 16) :: ds), ih (n / 16) [Nat.digitChar (n % 16)]]
      simp

theorem toDigitsCore_lower (fuel : Nat) :
    ∀ (n : Nat) (c : Char), c ∈ Nat.toDigitsCore 16 fuel n [] → c ∈ lower_hex_digits := by
  induction fuel with
  | zero => intro n c hc; simp [Nat.toDigitsCore] at hc
  | succ f ih =>
    intro n c hc
    simp only [Nat.toDigitsCore] at hc
    have hd := digitChar_lower (n % 16) (Nat.mod_lt n (by decide))
    by_cases h0 : n / 16 = 0
    · simp only [if_pos h0, List.mem_singleton] at hc
      rw [hc]; exact hd
    · simp only [if_neg h0] at hc
      rw [toDigitsCore_append, List.mem_append, List.mem_singleton] at hc
      rcases hc with hc | hc
      · exact ih _ _ hc
      · rw [hc]; exact hd

theorem parse_hex_aux_append (xs ys : List Char) :
    ∀ acc : Nat, parse_hex_aux acc (xs ++ ys)
      = (parse_hex_aux acc xs).bind (fun a => parse_hex_aux a ys) := by
  induction xs with
  | nil => intro acc; simp [parse_hex_aux]
  | cons x xs ih =>
    intro acc
    simp only [List.cons_append, parse_hex_aux]
    cases hex_digit_value x with
    | none => rfl
    | some d => exact ih _

theorem parse_toDigitsCore (fuel : Nat) :
    ∀ n : Nat, n < fuel → parse_hex_aux 0 (Nat.toDigitsCore 16 fuel n []) = some n := by
  induction fuel with
  | zero => intro n hn; omega
  | succ f ih =>
    intro n hn
    simp only [Nat.toDigitsCore]
    have hv := digitChar_value (n % 16) (Nat.mod_lt n (by decide))
    by_cases h0 : n / 16 = 0
    · simp only [if_pos h0, parse_hex_aux, hv]
      congr 1
      omega
    · simp only [if_neg h0]
      rw [toDigitsCore_append, parse_hex_aux_append, ih (n / 16) (by omega)]
      simp only [Option.some_bind, parse_hex_aux, hv]
      congr 1
      omega

theorem toDigits_ne_nil (n : Nat) : Nat.toDigits 16 n ≠ [] := by
  unfold Nat.toDigits
  simp only [Nat.toDigitsCore]
  by_cases h0 : n / 16 = 0
  · simp [h0]
  · simp only [if_neg h0]
    rw [toDigitsCore_append]
    simp

theorem parse_hex_aux_zeros (k : Nat) (cs : List Char) :
    parse_hex_aux 0 (List.replicate k '0' ++ cs) = parse_hex_aux 0 cs := by
  induction k with
  | zero => simp
  | succ k ih =>
    rw [List.replicate_succ, List.cons_append]
    simp only [parse_hex_aux]
    have h : hex_digit_value '0' = some 0 := by decide
    rw [h]
    exact ih

theorem fmt_hex_parse (width n : Nat) : parse_hex (fmt_hex width n).data = some n := by
  unfold parse_hex fmt_hex
  simp only []
  rw [if_neg (by simp [toDigits_ne_nil]), parse_hex_aux_zeros]
  exact parse_toDigitsCore (n + 1) n (by omega)

theorem fmt_hex_lower (width n : Nat) (c : Char) (hc : c ∈ (fmt_hex width n).data) :
    c ∈ lower_hex_digits := by
  unfold fmt_hex at hc
  simp only [List.mem_append] at hc
  rcases hc with hc | hc
  · rw [(List.mem_replicate.mp hc).2]; decide
  · exact toDigitsCore_lower _ _ _ hc

theorem fmt_hex_length (width n : Nat) (hw : 0 < width) (hn : n < 16 ^ width) :
    (fmt_hex width n).length = width := by
  unfold fmt_hex
  have hl := Nat.toDigitsCore_length 16 (by decide) (n + 1) n width hn hw
  simp only [String.length, List.length_append, List.length_replicate]
  unfold Nat.toDigits
  omega

theorem le_value_lt (bs : List Byte) : le_value bs < 256 ^ bs.length := by
  induction bs with
  | nil => simp [le_value]
  | cons b bs ih =>
    simp only [le_value, List.length_cons, pow_succ]
    have hb := b.isLt
    omega

theorem word_at_lt (e : Endian) (buf : List Byte) (ws i : Nat) :
    word_at e buf ws i < 16 ^ (2 * ws) := by
  have hp : (16 : Nat) ^ (2 * ws) = 256 ^ ws := by
    rw [pow_mul]; rfl
  rw [hp]
  unfold word_at word_value
  have hlen : ((buf.drop (i * ws)).take ws).length ≤ ws := by
    rw [List.length_take]; exact Nat.min_le_left _ _
  have hmono : ∀ bs : List Byte, bs.length ≤ ws → le_value bs < 256 ^ ws := fun bs hb =>
    lt_of_lt_of_le (le_value_lt bs) (Nat.pow_le_pow_right (by decide) hb)
  cases e with
  | little => exact hmono _ hlen
  | big => exact hmono _ (by rw [List.length_reverse]; exact hlen)

theorem tokens_text_append (e : Endian) (buf : List Byte) (ws : Nat)
    (word_pfx separator : String) (xs ys : List Nat) :
    tokens_text e buf ws word_pfx separator (xs ++ ys)
      = tokens_text e buf ws word_pfx separator xs
          ++ tokens_text e buf ws word_pfx separator ys := by
  unfold tokens_text
  rw [List.map_append, concat_append]

theorem tokens_text_cons (e : Endian) (buf : List Byte) (ws : Nat)
    (word_pfx separator : String) (i : Nat) (is : List Nat) :
    tokens_text e buf ws word_pfx separator (i :: is)
      = token e buf ws word_pfx separator i ++ row_break (row_len ws) (i + 1)
          ++ tokens_text e buf ws word_pfx separator is := by
  unfold tokens_text
  rw [List.map_cons, concat]

theorem range_split (n k : Nat) (hk : k < n) :
    List.range n = List.range k ++ k :: List.range' (k + 1) (n - k - 1) := by
  rw [List.range_eq_range', List.range_eq_range', ← List.range'_succ]
  have h := List.range'_append_1 0 k (n - k - 1 + 1)
  rw [Nat.zero_add] at h
  rw [h]
  congr 1
  omega

theorem newline_not_lower_hex : '\n' ∉ lower_hex_digits := by decide

theorem comma_not_lower_hex : ',' ∉ lower_hex_digits := by decide

theorem token_no_newline (e : Endian) (buf : List Byte) (ws : Nat)
    (word_pfx separator : String) (i : Nat)
    (hp : '\n' ∉ word_pfx.data) (hs : '\n' ∉ separator.data) :
    '\n' ∉ (token e buf ws word_pfx separator i).data := by
  unfold token
  simp only [String.data_append, List.mem_append, not_or]
  exact ⟨⟨hp, fun h => newline_not_lower_hex (fmt_hex_lower _ _ _ h)⟩, hs⟩

theorem filter_tokens_text (e : Endian) (buf : List Byte) (ws : Nat) :
    ∀ is : List Nat,
      (tokens_text e buf ws "0x" "," is).data.filter (fun c => decide (c ≠ '\n'))
        = is.flatMap (fun i =>
            ('0' :: 'x' :: (fmt_hex (2 * ws) (word_at e buf ws i)).data) ++ [',']) := by
  intro is
  induction is with
  | nil => rfl
  | cons i is ih =>
    rw [tokens_text_cons, String.data_append, String.data_append, List.filter_append,
      List.filter_append, ih, List.flatMap_cons]
    have htok : (token e buf ws "0x" "," i).data.filter (fun c => decide (c ≠ '\n'))
        = ('0' :: 'x' :: (fmt_hex (2 * ws) (word_at e buf ws i)).data) ++ [','] := by
      have hnn := token_no_newline e buf ws "0x" "," i (by decide) (by decide)
      rw [List.filter_eq_self.mpr (fun a ha => by
        simp only [decide_eq_true_eq]
        intro h
        exact hnn (h ▸ ha))]
      rfl
    have hbrk : (row_break (row_len ws) (i + 1)).data.filter (fun c => decide (c ≠ '\n'))
        = [] := by
      unfold row_break
      split_ifs <;> rfl
    rw [htok, hbrk, List.append_nil]

theorem split_commas_piece (t rest : List Char) (ht : ',' ∉ t) :
    split_commas (t ++ ',' :: rest) = t :: split_commas rest := by
  induction t with
  | nil => simp [split_commas]
  | cons c t ih =>
    have hc : c ≠ ',' := fun h => ht (by simp [h])
    have ht2 : ',' ∉ t := fun h => ht (List.mem_cons_of_mem _ h)
    rw [List.cons_append, split_commas, if_neg hc, ih ht2]

theorem split_commas_flatMap (T : Nat → List Char) (hT : ∀ i, ',' ∉ T i) :
    ∀ is : List Nat,
      split_commas (is.flatMap (fun i => T i ++ [','])) = is.map T ++ [[]] := by
  intro is
  induction is with
  | nil => rfl
  | cons i is ih =>
    rw [List.flatMap_cons, List.append_assoc, List.singleton_append,
      split_commas_piece _ _ (hT i), ih]
    rfl

theorem decode_tokens_pieces (w : Nat → Nat) (width : Nat) :
    ∀ is : List Nat,
      decode_tokens ((is.map (fun i => '0' :: 'x' :: (fmt_hex width (w i)).data) ++ [[]]).filter
          (fun t => decide (t ≠ [])))
        = some (is.map w) := by
  intro is
  induction is with
  | nil => rfl
  | cons i is ih =>
    rw [List.map_cons, List.cons_append, List.filter_cons_of_pos (by simp), decode_tokens, ih]
    simp only [strip_0x, Option.some_bind, fmt_hex_parse, Option.map_some', List.map_cons]

theorem le_bytes_le_value (bs : List Byte) : le_bytes bs.length (le_value bs) = bs := by
  induction bs with
  | nil => rfl
  | cons b bs ih =>
    have hb := b.isLt
    have h1 : (b.val + 256 * le_value bs) % 256 = b.val := by omega
    have h2 : (b.val + 256 * le_value bs) / 256 = le_value bs := by omega
    simp only [List.length_cons, le_value, le_bytes, h1, h2, ih]

theorem store_word_value (e : Endian) (ws : Nat) (bs : List Byte) (hl : bs.length = ws) :
    store_word e ws (word_value e bs) = bs := by
  subst hl
  cases e with
  | little => exact le_bytes_le_value bs
  | big =>
    unfold store_word word_value
    simp only []
    have h := le_bytes_le_value bs.reverse
    rw [List.length_reverse] at h
    rw [h, List.reverse_reverse]

theorem store_words_chunks (e : Endian) (buf : List Byte) (ws : Nat) :
    ∀ is : List Nat, (∀ i ∈ is, (i + 1) * ws ≤ buf.length) →
      (is.map (word_at e buf ws)).flatMap (store_word e ws)
        = is.flatMap (fun i => (buf.drop (i * ws)).take ws) := by
  intro is
  induction is with
  | nil => intro _; rfl
  | cons i is ih =>
    intro h
    rw [List.map_cons, List.flatMap_cons, List.flatMap_cons,
      ih (fun j hj => h j (List.mem_cons_of_mem _ hj))]
    congr 1
    unfold word_at
    apply store_word_value
    have hi := h i (List.mem_cons_self _ _)
    have hm : (i + 1) * ws = i * ws + ws := Nat.succ_mul i ws
    rw [List.length_take, List.length_drop]
    omega

theorem chunks_flatten (buf : List Byte) (ws : Nat) :
    ∀ n : Nat, (List.range n).flatMap (fun i => (buf.drop (i * ws)).take ws)
      = buf.take (n * ws) := by
  intro n
  induction n with
  | zero => simp
  | succ n ih =>
    rw [List.range_succ, List.flatMap_append, ih, List.flatMap_singleton, Nat.succ_mul,
      List.take_add]

theorem effective_bytes_cases (ws : Int) :
    (ws = 8 → effective_bytes ws = 8) ∧ (ws = 4 → effective_bytes ws = 4)
    ∧ (ws = 2 → effective_bytes ws = 2)
    ∧ (ws ≠ 8 → ws ≠ 4 → ws ≠ 2 → effective_bytes ws = 1) := by
  refine ⟨fun h => by rw [h]; decide, fun h => by rw [h]; decide, fun h => by rw [h]; decide, ?_⟩
  intro h8 h4 h2
  unfold effective_bytes effective_bits
  by_cases h1 : ws = 1
  · rw [h1]; decide
  · rw [if_neg (by simp [h1, h2, h4, h8])]; decide

theorem chex_dump_words_eq_gen (e : Endian) (info : Chex_Dump) (buf : List Byte)
    (in_size : Nat) (out : FILE) (word_pfx separator : String)
    (hW : 1 ≤ to_size_t info.word_size)
    (hpad : ceil_div in_size (to_size_t info.word_size) * effective_bytes info.word_size
      ≤ buf.length)
    (hcnt : ceil_div in_size (to_size_t info.word_size) ≤ INT_MAX) :
    chex_dump_words e info (some buf) in_size out word_pfx separator
      = some (out ++ tokens_text e buf (effective_bytes info.word_size) word_pfx separator
          (List.range (ceil_div in_size (to_size_t info.word_size)))) := by
  obtain ⟨c8, c4, c2, c1⟩ := effective_bytes_cases info.word_size
  unfold chex_dump_words tokens_text token
  rw [calc_word_count_eq _ _ hW, List.range_eq_range']
  simp only []
  by_cases h8 : info.word_size = 8
  · rw [if_pos h8]
    rw [c8 h8] at hpad ⊢
    rw [dump_loop_eq _ _ _ _ _ _ _ _ _ _ (by simpa using hpad) (by simpa using hcnt)]
    rfl
  · rw [if_neg h8]
    by_cases h4 : info.word_size = 4
    · rw [if_pos h4]
      rw [c4 h4] at hpad ⊢
      rw [dump_loop_eq _ _ _ _ _ _ _ _ _ _ (by simpa using hpad) (by simpa using hcnt)]
      rfl
    · rw [if_neg h4]
      by_cases h2 : info.word_size = 2
      · rw [if_pos h2]
        rw [c2 h2] at hpad ⊢
        rw [dump_loop_eq _ _ _ _ _ _ _ _ _ _ (by simpa using hpad) (by simpa using hcnt)]
        rfl
      · rw [if_neg h2]
        rw [c1 h8 h4 h2] at hpad ⊢
        rw [dump_loop_eq _ _ _ _ _ _ _ _ _ _ (by simpa using hpad) (by simpa using hcnt)]
        rfl

theorem long_loop_eq (buf : List Byte) :
    ∀ (n i : Nat) (out : FILE), i + n ≤ buf.length →
      long_loop (some buf) n i out
        = some (out ++ concat (((buf.drop i).take n).map (fun b => fmt_hex 0 b.val))) := by
  intro n
  induction n with
  | zero => intro i out _; simp [long_loop, concat]
  | succ n ih =>
    intro i out h
    have hi : i < buf.length := by omega
    have hd : buf.drop i = buf[i] :: buf.drop (i + 1) := List.drop_eq_getElem_cons hi
    have hr : read_bytes (some buf) i 1 = some [buf[i]] := by
      unfold read_bytes
      simp only []
      rw [if_pos (by omega), hd]
      rfl
    simp only [long_loop, hr]
    rw [ih (i + 1) _ (by omega), hd, List.take_succ_cons, List.map_cons, concat]
    simp only [le_value, String.append_assoc, Nat.mul_zero, Nat.add_zero]

theorem effective_bits_cases (ws : Int) :
    (ws = 8 → effective_bits ws = 64) ∧ (ws = 4 → effective_bits ws = 32)
    ∧ (ws = 2 → effective_bits ws = 16)
    ∧ (ws ≠ 8 → ws ≠ 4 → ws ≠ 2 → effective_bits ws = 8) := by
  refine ⟨fun h => by rw [h]; decide, fun h => by rw [h]; decide, fun h => by rw [h]; decide, ?_⟩
  intro h8 h4 h2
  unfold effective_bits
  by_cases h1 : ws = 1
  · rw [h1]; decide
  · rw [if_neg (by simp [h1, h2, h4, h8])]

theorem to_size_t_int_range (ws : Int) (hlo : -2 ^ 31 ≤ ws) (hhi : ws < 2 ^ 31) :
    (ws ≠ 0 → 1 ≤ to_size_t ws)
    ∧ (ws ≠ 8 → to_size_t ws ≠ 8) ∧ (ws ≠ 4 → to_size_t ws ≠ 4) ∧ (ws ≠ 2 → to_size_t ws ≠ 2)
    ∧ (0 ≤ ws → to_size_t ws = ws.toNat) := by
  unfold to_size_t
  refine ⟨?_, ?_, ?_, ?_, ?_⟩ <;> intro h <;> omega

theorem get_word_bits_eq (ws : Int) (hlo : -2 ^ 31 ≤ ws) (hhi : ws < 2 ^ 31) :
    chex__get_word_bits (to_size_t ws) = effective_bits ws := by
  obtain ⟨b8, b4, b2, b1⟩ := effective_bits_cases ws
  obtain ⟨_, t8, t4, t2, _⟩ := to_size_t_int_range ws hlo hhi
  by_cases h8 : ws = 8
  · rw [b8 h8, h8]; decide
  · by_cases h4 : ws = 4
    · rw [b4 h4, h4]; decide
    · by_cases h2 : ws = 2
      · rw [b2 h2, h2]; decide
      · rw [b1 h8 h4 h2]
        unfold chex__get_word_bits
        simp only []
        rw [if_pos ⟨t8 h8, t4 h4, t2 h2⟩]

theorem chex_dump_c__any_eq_gen (e : Endian) (info : Chex_Dump) (buf : List Byte)
    (in_size : Nat) (out : FILE) (pfx : String)
    (hW : 1 ≤ to_size_t info.word_size)
    (hpad : ceil_div in_size (to_size_t info.word_size) * effective_bytes info.word_size
      ≤ buf.length)
    (hcnt : ceil_div in_size (to_size_t info.word_size) ≤ INT_MAX) :
    chex_dump_c__any e info (some buf) in_size out pfx
      = some (out
          ++ (pfx ++ "uint" ++ fmt_d (effective_bits info.word_size) ++ "_t " ++ info.basename
                ++ "[" ++ fmt_zu (ceil_div in_size (to_size_t info.word_size)) ++ "] = \x7b\n")
          ++ tokens_text e buf (effective_bytes info.word_size) "0x" ","
                (List.range (ceil_div in_size (to_size_t info.word_size)))
          ++ "\n\x7d;\n") := by
  obtain ⟨b8, b4, b2, b1⟩ := effective_bits_cases info.word_size
  have hw := chex_dump_words_eq_gen e info buf in_size "" "0x" "," hW hpad hcnt
  rw [String.empty_append] at hw
  unfold chex_dump_c__any
  rw [calc_word_count_eq _ _ hW]
  simp only []
  rw [chex_dump_words_append, hw]
  simp only [Option.map_some']
  by_cases h8 : info.word_size = 8
  · rw [if_pos h8, b8 h8]
    simp only [fmt_d, String.append_assoc]
    rfl
  · rw [if_neg h8]
    by_cases h4 : info.word_size = 4
    · rw [if_pos h4, b4 h4]
      simp only [fmt_d, String.append_assoc]
      rfl
    · rw [if_neg h4]
      by_cases h2 : info.word_size = 2
      · rw [if_pos h2, b2 h2]
        simp only [fmt_d, String.append_assoc]
        rfl
      · rw [if_neg h2, b1 h8 h4 h2]
        simp only [fmt_d, String.append_assoc]
        rfl

theorem chex_dump_zig_eq_gen (e : Endian) (info : Chex_Dump) (buf : List Byte)
    (in_size : Nat) (out : FILE)
    (hlo : -2 ^ 31 ≤ info.word_size) (hhi : info.word_size < 2 ^ 31)
    (hW : 1 ≤ to_size_t info.word_size)
    (hpad : ceil_div in_size (to_size_t info.word_size) * effective_bytes info.word_size
      ≤ buf.length)
    (hcnt : ceil_div in_size (to_size_t info.word_size) ≤ INT_MAX) :
    chex_dump_zig e info (some buf) in_size out
      = some (out
          ++ ("const " ++ info.basename ++ " [" ++ fmt_zu in_size ++ "]u"
                ++ fmt_d (effective_bits info.word_size) ++ " = \x7b\n")
          ++ tokens_text e buf (effective_bytes info.word_size) "0x" ","
                (List.range (ceil_div in_size (to_size_t info.word_size)))
          ++ "\n\x7d;\n") := by
  have hw := chex_dump_words_eq_gen e info buf in_size "" "0x" "," hW hpad hcnt
  rw [String.empty_append] at hw
  unfold chex_dump_zig
  simp only []
  rw [chex_dump_words_append, hw, get_word_bits_eq _ hlo hhi]
  simp only [Option.map_some', String.append_assoc]

theorem chex_dump_c_extern_eq_gen (info : Chex_Dump) (mem : Option (List Byte))
    (in_size : Nat) (out : FILE)
    (hlo : -2 ^ 31 ≤ info.word_size) (hhi : info.word_size < 2 ^ 31)
    (hW : 1 ≤ to_size_t info.word_size) :
    chex_dump_c_extern info mem in_size out
      = some (out
          ++ ("extern uint" ++ fmt_d (effective_bits info.word_size) ++ "_t " ++ info.basename
                ++ "[" ++ fmt_zu (ceil_div in_size (to_size_t info.word_size)) ++ "];\n")
          ++ ("static const size_t " ++ info.basename ++ "_SIZE = " ++ fmt_zu in_size
                ++ ";\n")) := by
  unfold chex_dump_c_extern
  rw [get_word_bits_eq _ hlo hhi, calc_word_count_eq _ _ hW]

theorem parse_options_word_size_inv (atoi : String → Int) :
    ∀ (n : Nat) (argv : List String) (st st2 : Cli_State), argv.length ≤ n →
      (st.word_size = 1 ∨ st.word_size = 2 ∨ st.word_size = 4 ∨ st.word_size = 8) →
      parse_options atoi argv st = Outcome.running st2 →
      (st2.word_size = 1 ∨ st2.word_size = 2 ∨ st2.word_size = 4 ∨ st2.word_size = 8) := by
  intro n
  induction n with
  | zero =>
    intro argv st st2 hlen hv h
    have : argv = [] := List.length_eq_zero.mp (by omega)
    subst this
    simp only [parse_options, Outcome.running.injEq] at h
    rw [← h]; exact hv
  | succ n ih =>
    intro argv st st2 hlen hv h
    cases argv with
    | nil =>
      simp only [parse_options, Outcome.running.injEq] at h
      rw [← h]; exact hv
    | cons a rest =>
      simp only [List.length_cons] at hlen
      unfold parse_options at h
      split_ifs at h with c1 c2 c3 c4 c5 c6
      · simp only [Outcome.running.injEq] at h
        rw [← h]; exact hv
      · cases rest with
        | nil => simp at h
        | cons v rest2 =>
          simp only [List.length_cons] at hlen
          simp only [] at h
          split_ifs at h with c7
          have hv2 : atoi v = 1 ∨ atoi v = 2 ∨ atoi v = 4 ∨ atoi v = 8 := by
            by_contra hc
            simp only [not_or] at hc
            exact c7 ⟨hc.2.2.2, hc.2.2.1, hc.2.1, hc.1⟩
          exact ih rest2 _ st2 (by omega) (by exact hv2) h
      · exact ih rest _ st2 (by omega) (by exact hv) h
      · cases rest with
        | nil => simp at h
        | cons v rest2 =>
          simp only [List.length_cons] at hlen
          simp only [] at h
          exact ih rest2 _ st2 (by omega) (by exact hv) h
      · cases rest with
        | nil => simp at h
        | cons v rest2 =>
          simp only [List.length_cons] at hlen
          simp only [] at h
          exact ih rest2 _ st2 (by omega) (by exact hv) h

theorem parse_options_default_inv (atoi : String → Int) :
    ∀ (n : Nat) (argv : List String) (st st2 : Cli_State), argv.length ≤ n →
      "-wordsize" ∉ argv →
      parse_options atoi argv st = Outcome.running st2 →
      st2.word_size = st.word_size := by
  intro n
  induction n with
  | zero =>
    intro argv st st2 hlen _ h
    have : argv = [] := List.length_eq_zero.mp (by omega)
    subst this
    simp only [parse_options, Outcome.running.injEq] at h
    rw [← h]
  | succ n ih =>
    intro argv st st2 hlen hno h
    cases argv with
    | nil =>
      simp only [parse_options, Outcome.running.injEq] at h
      rw [← h]
    | cons a rest =>
      simp only [List.length_cons] at hlen
      simp only [List.mem_cons, not_or] at hno
      unfold parse_options at h
      split_ifs at h with c1 c2 c3 c4 c5 c6
      · simp only [Outcome.running.injEq] at h
        rw [← h]
      · exact absurd c3.symm hno.1
      · have hr := ih rest _ st2 (by omega) hno.2 h
        exact hr
      · cases rest with
        | nil => simp at h
        | cons v rest2 =>
          simp only [List.length_cons] at hlen
          simp only [List.mem_cons, not_or] at hno
          simp only [] at h
          have hr := ih rest2 _ st2 (by omega) hno.2.2 h
          exact hr
      · cases rest with
        | nil => simp at h
        | cons v rest2 =>
          simp only [List.length_cons] at hlen
          simp only [List.mem_cons, not_or] at hno
          simp only [] at h
          have hr := ih rest2 _ st2 (by omega) hno.2.2 h
          exact hr

theorem find_format_unknown (s : String)
    (hs : s ∉ ["long", "c-extern", "c-source", "c-static", "zig"]) :
    find_format s = CHEX_FORMAT__COUNT := by
  simp only [List.mem_cons, List.mem_singleton, List.mem_nil_iff, or_false, not_or] at hs
  obtain ⟨h0, h1, h2, h3, h4⟩ := hs
  have e0 : CHEX_FORMAT__NAMES 0 = some "long" := rfl
  have e1 : CHEX_FORMAT__NAMES 1 = some "c-extern" := rfl
  have e2 : CHEX_FORMAT__NAMES 2 = some "c-source" := rfl
  have e3 : CHEX_FORMAT__NAMES 3 = some "c-static" := rfl
  have e4 : CHEX_FORMAT__NAMES 4 = some "zig" := rfl
  unfold find_format CHEX_FORMAT__COUNT
  simp only [find_format_loop, e0, e1, e2, e3, e4, Option.some.injEq, Nat.zero_add,
    Nat.reduceAdd]
  rw [if_neg (Ne.symm h0), if_neg (Ne.symm h1), if_neg (Ne.symm h2), if_neg (Ne.symm h3),
    if_neg (Ne.symm h4)]
  rfl

theorem chex_dump_words_overflow (e : Endian) (info : Chex_Dump) (mem : Option (List Byte))
    (in_size : Nat) (out : FILE) (word_pfx separator : String) (word_count : Nat)
    (hc : chex__calc_word_count (to_size_t info.word_size) in_size = some word_count)
    (hov : INT_MAX < word_count) :
    chex_dump_words e info mem in_size out word_pfx separator = none := by
  unfold chex_dump_words
  rw [hc]
  simp only []
  split_ifs <;> exact dump_loop_overflow _ _ _ _ _ _ _ _ _ _ (Nat.zero_le _) (by omega)

theorem load_word_value (e : Endian) (buf : List Byte) (ws i w : Nat)
    (h : load_word e (some buf) ws i = some w) : w = word_at e buf ws i := by
  unfold load_word read_bytes at h
  unfold word_at
  simp only [] at h
  split_ifs at h
  · simp only [Option.map_some', Option.some.injEq] at h
    exact h.symm
  · simp at h

theorem dump_loop_some_eq (e : Endian) (buf : List Byte) (ws width per_row : Nat)
    (word_pfx separator : String) :
    ∀ (n i : Nat) (out r : FILE),
      dump_loop e (some buf) ws width per_row word_pfx separator n i out = some r →
      r = out ++ concat ((List.range' i n).map (fun j =>
            (word_pfx ++ fmt_hex width (word_at e buf ws j) ++ separator)
              ++ row_break per_row (j + 1))) := by
  intro n
  induction n with
  | zero =>
    intro i out r h
    simp only [dump_loop, Option.some.injEq] at h
    rw [← h]
    simp [concat]
  | succ n ih =>
    intro i out r h
    simp only [dump_loop] at h
    cases hl : load_word e (some buf) ws i with
    | none => rw [hl] at h; simp at h
    | some w =>
      rw [hl] at h
      simp only [] at h
      have hw := load_word_value e buf ws i w hl
      by_cases hov : INT_MAX < i + 1
      · rw [if_pos hov] at h
        simp at h
      · rw [if_neg hov] at h
        rw [ih (i + 1) _ r h, List.range'_succ, List.map_cons, concat, hw]
        unfold row_break
        by_cases hb : (i + 1) % per_row = 0
        · simp only [if_pos hb, String.append_assoc]
        · simp only [if_neg hb, String.append_assoc, String.append_empty]

theorem chex_dump_words_some_eq (e : Endian) (info : Chex_Dump) (buf : List Byte)
    (in_size : Nat) (out r : FILE) (word_pfx separator : String)
    (hW : 1 ≤ to_size_t info.word_size)
    (h : chex_dump_words e info (some buf) in_size out word_pfx separator = some r) :
    r = out ++ tokens_text e buf (effective_bytes info.word_size) word_pfx separator
          (List.range (ceil_div in_size (to_size_t info.word_size))) := by
  obtain ⟨c8, c4, c2, c1⟩ := effective_bytes_cases info.word_size
  unfold chex_dump_words at h
  unfold tokens_text token
  rw [calc_word_count_eq _ _ hW] at h
  rw [List.range_eq_range']
  simp only [] at h
  by_cases h8 : info.word_size = 8
  · rw [if_pos h8] at h
    rw [c8 h8, dump_loop_some_eq _ _ _ _ _ _ _ _ _ _ _ h]
    rfl
  · rw [if_neg h8] at h
    by_cases h4 : info.word_size = 4
    · rw [if_pos h4] at h
      rw [c4 h4, dump_loop_some_eq _ _ _ _ _ _ _ _ _ _ _ h]
      rfl
    · rw [if_neg h4] at h
      by_cases h2 : info.word_size = 2
      · rw [if_pos h2] at h
        rw [c2 h2, dump_loop_some_eq _ _ _ _ _ _ _ _ _ _ _ h]
        rfl
      · rw [if_neg h2] at h
        rw [c1 h8 h4 h2, dump_loop_some_eq _ _ _ _ _ _ _ _ _ _ _ h]
        rfl

theorem chex_dump_c__any_rel (e : Endian) (info : Chex_Dump) (mem : Option (List Byte))
    (in_size : Nat) (out : FILE) (pfx : String)
    (hW : 1 ≤ to_size_t info.word_size) :
    chex_dump_c__any e info mem in_size out pfx
      = (chex_dump_words e info mem in_size "" "0x" ",").map (fun body =>
          out
          ++ (pfx ++ "uint" ++ fmt_d (effective_bits info.word_size) ++ "_t " ++ info.basename
                ++ "[" ++ fmt_zu (ceil_div in_size (to_size_t info.word_size)) ++ "] = \x7b\n")
          ++ body ++ "\n\x7d;\n") := by
  obtain ⟨b8, b4, b2, b1⟩ := effective_bits_cases info.word_size
  unfold chex_dump_c__any
  rw [calc_word_count_eq _ _ hW]
  simp only []
  rw [chex_dump_words_append]
  cases chex_dump_words e info mem in_size "" "0x" "," with
  | none => rfl
  | some body =>
    simp only [Option.map_some']
    by_cases h8 : info.word_size = 8
    · rw [if_pos h8, b8 h8]
      simp only [fmt_d, String.append_assoc]
      rfl
    · rw [if_neg h8]
      by_cases h4 : info.word_size = 4
      · rw [if_pos h4, b4 h4]
        simp only [fmt_d, String.append_assoc]
        rfl
      · rw [if_neg h4]
        by_cases h2 : info.word_size = 2
        · rw [if_pos h2, b2 h2]
          simp only [fmt_d, String.append_assoc]
          rfl
        · rw [if_neg h2, b1 h8 h4 h2]
          simp only [fmt_d, String.append_assoc]
          rfl

theorem chex_dump_zig_rel (e : Endian) (info : Chex_Dump) (mem : Option (List Byte))
    (in_size : Nat) (out : FILE)
    (hlo : -2 ^ 31 ≤ info.word_size) (hhi : info.word_size < 2 ^ 31) :
    chex_dump_zig e info mem in_size out
      = (chex_dump_words e info mem in_size "" "0x" ",").map (fun body =>
          out
          ++ ("const " ++ info.basename ++ " [" ++ fmt_zu in_size ++ "]u"
                ++ fmt_d (effective_bits info.word_size) ++ " = \x7b\n")
          ++ body ++ "\n\x7d;\n") := by
  unfold chex_dump_zig
  simp only []
  rw [chex_dump_words_append, get_word_bits_eq _ hlo hhi]
  cases chex_dump_words e info mem in_size "" "0x" "," with
  | none => rfl
  | some body => simp only [Option.map_some', String.append_assoc]

/-- Claim C7: for every word size `w ≥ 1` and every buffer length `n`,
`chex__calc_word_count w n` returns the ceiling of `n / w`, which is the least
`c` with `c * w ≥ n`; word_count(4,10)=3, word_count(8,16)=2,
word_count(1,0)=0. -/
theorem chex__calc_word_count_is_ceil (w n : Nat) (hw : 1 ≤ w) :
    chex__calc_word_count w n = some ⌈(n : ℚ) / (w : ℚ)⌉₊
    ∧ n ≤ ⌈(n : ℚ) / (w : ℚ)⌉₊ * w
    ∧ (∀ c : Nat, n ≤ c * w → ⌈(n : ℚ) / (w : ℚ)⌉₊ ≤ c)
    ∧ chex__calc_word_count 4 10 = some 3
    ∧ chex__calc_word_count 8 16 = some 2
    ∧ chex__calc_word_count 1 0 = some 0 := by
  have hwq : (0 : ℚ) < (w : ℚ) := by exact_mod_cast hw
  have hceil : ⌈(n : ℚ) / (w : ℚ)⌉₊ = ceil_div n w := by
    apply le_antisymm
    · apply Nat.ceil_le.mpr
      rw [div_le_iff₀ hwq]
      exact_mod_cast ceil_div_mul_ge w n hw
    · apply ceil_div_least w n _ hw
      have h := Nat.le_ceil ((n : ℚ) / (w : ℚ))
      rw [div_le_iff₀ hwq] at h
      exact_mod_cast h
  rw [hceil]
  refine ⟨calc_word_count_eq w n hw, ceil_div_mul_ge w n hw,
    fun c hc => ceil_div_least w n c hw hc, by decide, by decide, by decide⟩

/-- Instance of C7 at `w = 4`, `n = 10`. -/
theorem chex__calc_word_count_is_ceil_witness :
    1 ≤ 4 ∧ chex__calc_word_count 4 10 = some ⌈((10 : Nat) : ℚ) / ((4 : Nat) : ℚ)⌉₊ :=
  ⟨by decide, (chex__calc_word_count_is_ceil 4 10 (by decide)).1⟩

/-- Claim C8: for every basename, word size in {1,2,4,8} and `in_size`,
`chex_dump_c_extern` writes exactly the line
"extern uint{8*word_size}_t {basename}[{ceil(in_size/word_size)}];\n" and the line
"static const size_t {basename}_SIZE = {in_size};\n" with the unpadded size; the
output is the same for any two input pointers, NULL included; for basename "FOO",
word size 4 and `in_size` 16 it is
"extern uint32_t FOO[4];\nstatic const size_t FOO_SIZE = 16;\n". -/
theorem chex_dump_c_extern_two_lines (info : Chex_Dump) (mem mem2 : Option (List Byte))
    (in_size : Nat) (out : FILE)
    (hws : info.word_size = 1 ∨ info.word_size = 2 ∨ info.word_size = 4 ∨ info.word_size = 8) :
    chex_dump_c_extern info mem in_size out
      = some (out
          ++ ("extern uint" ++ fmt_d (8 * info.word_size) ++ "_t " ++ info.basename ++ "["
                ++ fmt_zu (ceil_div in_size info.word_size.toNat) ++ "];\n")
          ++ ("static const size_t " ++ info.basename ++ "_SIZE = " ++ fmt_zu in_size ++ ";\n"))
    ∧ chex_dump_c_extern info mem2 in_size out = chex_dump_c_extern info mem in_size out
    ∧ chex_dump_c_extern info none in_size out = chex_dump_c_extern info mem in_size out
    ∧ chex_dump_c_extern (Chex_Dump.mk "FOO" [] 4) none 16 ""
      = some "extern uint32_t FOO[4];\nstatic const size_t FOO_SIZE = 16;\n" := by
  refine ⟨?_, rfl, rfl, by decide⟩
  obtain ⟨h1, hsz, _⟩ := word_size_cases info hws
  unfold chex_dump_c_extern
  rw [get_word_bits_valid info hws, hsz, calc_word_count_eq _ _ (by omega)]

/-- Instance of C8: the example of the specification, with a NULL input pointer. -/
theorem chex_dump_c_extern_two_lines_witness :
    ((4 : Int) = 1 ∨ (4 : Int) = 2 ∨ (4 : Int) = 4 ∨ (4 : Int) = 8)
    ∧ chex_dump_c_extern (Chex_Dump.mk "FOO" [] 4) none 16 ""
      = some "extern uint32_t FOO[4];\nstatic const size_t FOO_SIZE = 16;\n" :=
  ⟨by decide,
    (chex_dump_c_extern_two_lines (Chex_Dump.mk "FOO" [] 4) none none 16 ""
      (by decide)).1.trans (by decide)⟩

/-- Claim C9: for every request and buffer, what `chex_dump_c_static` writes is
"static const size_t {basename}_SIZE = {in_size};\n", then "static const ", then
the complete output of `chex_dump_c_source` on the same request and buffer (and
it is undefined exactly when `chex_dump_c_source` is). -/
theorem chex_dump_c_static_eq_source (e : Endian) (info : Chex_Dump)
    (mem : Option (List Byte)) (in_size : Nat) (out : FILE) :
    chex_dump_c_static e info mem in_size out
      = (chex_dump_c_source e info mem in_size "").map (fun src =>
          out ++ ("static const size_t " ++ info.basename ++ "_SIZE = " ++ fmt_zu in_size ++ ";\n")
            ++ "static const " ++ src) := by
  unfold chex_dump_c_static chex_dump_c_source
  simp only []
  rw [chex_dump_c__any_append]

/-- Claim C2 (defect of the code: `int` loop counter): for every word size in
{1,2,4,8}, every word prefix and separator and every padded buffer of at most
`INT_MAX` words, `chex_dump_words` writes, for each word of the buffer in buffer
order, the word prefix, `hex(w)` and the separator (followed by the row break of
that position), where `hex(w)` has exactly `2 * word_size` characters, all
lowercase hexadecimal digits, zero-padded on the left, and denotes the number `w`;
byte 0x0A with word size 1 gives "0a" and word 0x000A with word size 2 gives
"000a". For a buffer of 2^31 + 1 one-byte words the counter `int i` overflows,
which is undefined, and the last word cannot get its token; `chex_dump_long`
counts with `size_t`. -/
theorem chex_dump_words_tokens (e : Endian) (info : Chex_Dump) (buf : List Byte)
    (in_size : Nat) (out : FILE) (word_pfx separator : String)
    (hws : info.word_size = 1 ∨ info.word_size = 2 ∨ info.word_size = 4 ∨ info.word_size = 8)
    (hpad : buf.length = ceil_div in_size info.word_size.toNat * info.word_size.toNat)
    (hcnt : ceil_div in_size info.word_size.toNat ≤ INT_MAX) :
    chex_dump_words e info (some buf) in_size out word_pfx separator
      = some (out ++ concat ((List.range (ceil_div in_size info.word_size.toNat)).map (fun i =>
          word_pfx ++ fmt_hex (2 * info.word_size.toNat) (word_at e buf info.word_size.toNat i)
            ++ separator ++ row_break (row_len info.word_size.toNat) (i + 1))))
    ∧ (∀ i : Nat, i < ceil_div in_size info.word_size.toNat →
        (fmt_hex (2 * info.word_size.toNat) (word_at e buf info.word_size.toNat i)).length
            = 2 * info.word_size.toNat
        ∧ (∀ c : Char,
            c ∈ (fmt_hex (2 * info.word_size.toNat) (word_at e buf info.word_size.toNat i)).data →
            c ∈ lower_hex_digits)
        ∧ parse_hex (fmt_hex (2 * info.word_size.toNat) (word_at e buf info.word_size.toNat i)).data
            = some (word_at e buf info.word_size.toNat i))
    ∧ chex_dump_words e (Chex_Dump.mk "FOO" [] 1) (some [0x0A]) 1 "" "" "" = some "0a"
    ∧ chex_dump_words Endian.little (Chex_Dump.mk "FOO" [] 2) (some [0x0A, 0x00]) 2 "" "" ""
        = some "000a"
    ∧ chex_dump_words Endian.big (Chex_Dump.mk "FOO" [] 2) (some [0x00, 0x0A]) 2 "" "" ""
        = some "000a"
    ∧ chex_dump_words e (Chex_Dump.mk "FOO" [] 1)
        (some (List.replicate 2147483649 (0 : Byte))) 2147483649 out word_pfx separator
        = none := by
  obtain ⟨h1, _, _⟩ := word_size_cases info hws
  refine ⟨chex_dump_words_eq e info buf in_size out word_pfx separator hws
      (le_of_eq hpad.symm) hcnt,
    fun i _ => ⟨?_, fun c hc => fmt_hex_lower _ _ c hc, fmt_hex_parse _ _⟩,
    by cases e <;> decide, by decide, by decide,
    chex_dump_words_overflow e _ _ _ out word_pfx separator 2147483649 (by decide)
      (by decide)⟩
  exact fmt_hex_length _ _ (by omega) (word_at_lt e buf _ i)

/-- Instance of C2: two 2-byte words on a little-endian host. -/
theorem chex_dump_words_tokens_witness :
    ((2 : Int) = 1 ∨ (2 : Int) = 2 ∨ (2 : Int) = 4 ∨ (2 : Int) = 8)
    ∧ ([0x0A, 0x00, 0x34, 0x12] : List Byte).length
        = ceil_div 4 (2 : Int).toNat * (2 : Int).toNat
    ∧ ceil_div 4 (2 : Int).toNat ≤ INT_MAX
    ∧ chex_dump_words Endian.little (Chex_Dump.mk "FOO" [] 2)
        (some [0x0A, 0x00, 0x34, 0x12]) 4 "" "0x" ","
      = some "0x000a,0x1234," :=
  ⟨by decide, by decide, by decide,
    (chex_dump_words_tokens Endian.little (Chex_Dump.mk "FOO" [] 2) [0x0A, 0x00, 0x34, 0x12] 4
      "" "0x" "," (by decide) (by decide) (by decide)).1.trans (by decide)⟩

/-- Claim C3 (defect of the code): `chex_dump_long` prints each byte with `%x`,
without the two-digit zero padding that the byte loop of `chex_dump_words` applies
with `%02x`: the bytes [0x01, 0x02] give "12", one character per byte, not "0102";
[0xDE,0xAD,0xBE,0xEF] does give "deadbeef". -/
theorem chex_dump_long_drops_leading_zero :
    chex_dump_long (Chex_Dump.mk "FOO" [] 1) (some [0x01, 0x02]) 2 "" = some "12"
    ∧ chex_dump_words Endian.little (Chex_Dump.mk "FOO" [] 1) (some [0x01, 0x02]) 2 "" "" ""
        = some "0102"
    ∧ chex_dump_long (Chex_Dump.mk "FOO" [] 1) (some [0xDE, 0xAD, 0xBE, 0xEF]) 4 ""
        = some "deadbeef" := by
  refine ⟨by decide, by decide, by decide⟩

/-- Claim C5 as stated fails: with 1-byte words and 16 bytes (one full row) the
output of `chex_dump_words` ends with a line break. -/
theorem chex_dump_words_full_row_ends_with_break :
    chex_dump_words Endian.little (Chex_Dump.mk "FOO" [] 1)
        (some [0, 1, 2, 3, 4, 5, 6, 7, 8, 9, 10, 11, 12, 13, 14, 15]) 16 "" "0x" ","
      = some ("0x00,0x01,0x02,0x03,0x04,0x05,0x06,0x07,"
          ++ "0x08,0x09,0x0a,0x0b,0x0c,0x0d,0x0e,0x0f," ++ "\n")
    ∧ (("0x00,0x01,0x02,0x03,0x04,0x05,0x06,0x07,"
          ++ "0x08,0x09,0x0a,0x0b,0x0c,0x0d,0x0e,0x0f," ++ "\n").data.getLast? = some '\n') := by
  refine ⟨by decide, by decide⟩

/-- Claim C5, amended: for every word size in {1,2,4,8} and every non-empty padded
buffer of at most `INT_MAX` words, the output of `chex_dump_words` ends with the
final token followed by a line break when the number of tokens is a multiple of
the row length N, and by nothing otherwise. -/
theorem chex_dump_words_final_token (e : Endian) (info : Chex_Dump) (buf : List Byte)
    (in_size : Nat) (out : FILE) (word_pfx separator : String)
    (hws : info.word_size = 1 ∨ info.word_size = 2 ∨ info.word_size = 4 ∨ info.word_size = 8)
    (hpad : buf.length = ceil_div in_size info.word_size.toNat * info.word_size.toNat)
    (hne : 0 < in_size)
    (hcnt : ceil_div in_size info.word_size.toNat ≤ INT_MAX) :
    chex_dump_words e info (some buf) in_size out word_pfx separator
      = some (out
          ++ tokens_text e buf info.word_size.toNat word_pfx separator
              (List.range (ceil_div in_size info.word_size.toNat - 1))
          ++ token e buf info.word_size.toNat word_pfx separator
              (ceil_div in_size info.word_size.toNat - 1)
          ++ (if ceil_div in_size info.word_size.toNat % row_len info.word_size.toNat = 0
              then "\n" else "")) := by
  obtain ⟨h1, _, _⟩ := word_size_cases info hws
  have hwc : 0 < ceil_div in_size info.word_size.toNat := by
    have h := ceil_div_mul_ge info.word_size.toNat in_size (by omega)
    by_contra h0
    have hz : ceil_div in_size info.word_size.toNat = 0 := by omega
    rw [hz] at h
    omega
  rw [chex_dump_words_eq e info buf in_size out word_pfx separator hws (le_of_eq hpad.symm)
    hcnt]
  have hr : List.range (ceil_div in_size info.word_size.toNat)
      = List.range (ceil_div in_size info.word_size.toNat - 1)
          ++ [ceil_div in_size info.word_size.toNat - 1] := by
    rw [← List.range_succ]
    congr 1
    omega
  have hs : ceil_div in_size info.word_size.toNat - 1 + 1
      = ceil_div in_size info.word_size.toNat := by omega
  conv_lhs => rw [hr]
  rw [tokens_text_append, tokens_text_cons, hs]
  unfold row_break
  simp only [tokens_text, List.map_nil, concat, String.append_assoc, String.append_empty]

/-- Instance of amended C5: 16 one-byte words, a full row, end with a line break. -/
theorem chex_dump_words_final_token_witness :
    ((1 : Int) = 1 ∨ (1 : Int) = 2 ∨ (1 : Int) = 4 ∨ (1 : Int) = 8)
    ∧ ([0, 1, 2, 3, 4, 5, 6, 7, 8, 9, 10, 11, 12, 13, 14, 15] : List Byte).length
        = ceil_div 16 (1 : Int).toNat * (1 : Int).toNat
    ∧ 0 < 16
    ∧ ceil_div 16 (1 : Int).toNat ≤ INT_MAX
    ∧ chex_dump_words Endian.little (Chex_Dump.mk "FOO" [] 1)
        (some [0, 1, 2, 3, 4, 5, 6, 7, 8, 9, 10, 11, 12, 13, 14, 15]) 16 "" "0x" ","
      = some ("0x00,0x01,0x02,0x03,0x04,0x05,0x06,0x07,0x08,0x09,0x0a,0x0b,0x0c,0x0d,0x0e,"
          ++ "0x0f," ++ "\n") :=
  ⟨by decide, by decide, by decide, by decide,
    (chex_dump_words_final_token Endian.little (Chex_Dump.mk "FOO" [] 1)
      [0, 1, 2, 3, 4, 5, 6, 7, 8, 9, 10, 11, 12, 13, 14, 15] 16 "" "0x" ","
      (by decide) (by decide) (by decide) (by decide)).trans (by decide)⟩

/-- Claim C6 (defect of the code: `int` loop counter): row wrapping in
`chex_dump_words`. With N = 4 for word size 8, N = 8 for word sizes 4 and 2, N = 16
for word size 1, a word prefix and separator free of line breaks and a padded
buffer of at most `INT_MAX` words: no token contains a line break, and for every
`k` with `1 ≤ k < word_count` the `k`-th token is immediately followed by a line
break if `k` is a multiple of N and immediately by the next token otherwise. For a
buffer of 2^31 + 1 eight-byte words the counter `int i` overflows in `(i+1) % 4`,
which is undefined, before the last token; `chex_dump_long` counts with `size_t`. -/
theorem chex_dump_words_row_wrapping (e : Endian) (info : Chex_Dump) (buf : List Byte)
    (in_size : Nat) (out : FILE) (word_pfx separator : String)
    (hws : info.word_size = 1 ∨ info.word_size = 2 ∨ info.word_size = 4 ∨ info.word_size = 8)
    (hpad : buf.length = ceil_div in_size info.word_size.toNat * info.word_size.toNat)
    (hcnt : ceil_div in_size info.word_size.toNat ≤ INT_MAX)
    (hp : '\n' ∉ word_pfx.data) (hs : '\n' ∉ separator.data) :
    (row_len 8 = 4 ∧ row_len 4 = 8 ∧ row_len 2 = 8 ∧ row_len 1 = 16)
    ∧ (∀ i : Nat, '\n' ∉ (token e buf info.word_size.toNat word_pfx separator i).data)
    ∧ (∀ k : Nat, 1 ≤ k → k < ceil_div in_size info.word_size.toNat →
        chex_dump_words e info (some buf) in_size out word_pfx separator
          = some (out
              ++ tokens_text e buf info.word_size.toNat word_pfx separator (List.range (k - 1))
              ++ token e buf info.word_size.toNat word_pfx separator (k - 1)
              ++ (if k % row_len info.word_size.toNat = 0 then "\n" else "")
              ++ token e buf info.word_size.toNat word_pfx separator k
              ++ row_break (row_len info.word_size.toNat) (k + 1)
              ++ tokens_text e buf info.word_size.toNat word_pfx separator
                  (List.range' (k + 1) (ceil_div in_size info.word_size.toNat - k - 1))))
    ∧ chex_dump_words e (Chex_Dump.mk "FOO" [] 8)
        (some (List.replicate 17179869192 (0 : Byte))) 17179869192 out word_pfx separator
        = none := by
  refine ⟨by decide, fun i => token_no_newline e buf _ word_pfx separator i hp hs, ?_,
    chex_dump_words_overflow e _ _ _ out word_pfx separator 2147483649 (by decide)
      (by decide)⟩
  intro k hk1 hk
  rw [chex_dump_words_eq e info buf in_size out word_pfx separator hws (le_of_eq hpad.symm)
    hcnt]
  have hk2 : k - 1 + 1 = k := by omega
  have hr : List.range (ceil_div in_size info.word_size.toNat)
      = List.range (k - 1) ++ (k - 1) :: k
          :: List.range' (k + 1) (ceil_div in_size info.word_size.toNat - k - 1) := by
    rw [range_split _ (k - 1) (by omega), hk2]
    congr 2
    rw [← List.range'_succ]
    congr 1
    omega
  conv_lhs => rw [hr]
  rw [tokens_text_append, tokens_text_cons, tokens_text_cons, hk2]
  unfold row_break
  simp only [String.append_assoc]

/-- Instance of C6: nine 4-byte words on a little-endian host, `k = 8`: the line
break comes after the eighth token and before the ninth. -/
theorem chex_dump_words_row_wrapping_witness :
    ((4 : Int) = 1 ∨ (4 : Int) = 2 ∨ (4 : Int) = 4 ∨ (4 : Int) = 8)
    ∧ (List.replicate 36 (7 : Byte)).length = ceil_div 36 (4 : Int).toNat * (4 : Int).toNat
    ∧ ceil_div 36 (4 : Int).toNat ≤ INT_MAX
    ∧ '\n' ∉ "0x".data ∧ '\n' ∉ ",".data
    ∧ 1 ≤ 8 ∧ 8 < ceil_div 36 (4 : Int).toNat
    ∧ chex_dump_words Endian.little (Chex_Dump.mk "FOO" [] 4)
        (some (List.replicate 36 (7 : Byte))) 36 "" "0x" ","
      = some ("0x07070707,0x07070707,0x07070707,0x07070707,"
          ++ "0x07070707,0x07070707,0x07070707,0x07070707," ++ "\n" ++ "0x07070707,") :=
  ⟨by decide, by decide, by decide, by decide, by decide, by decide, by decide,
    ((chex_dump_words_row_wrapping Endian.little (Chex_Dump.mk "FOO" [] 4)
      (List.replicate 36 (7 : Byte)) 36 "" "0x" ","
      (by decide) (by decide) (by decide) (by decide) (by decide)).2.2.1 8 (by decide)
      (by decide)).trans
      (by decide)⟩

/-- Claim C4 (round trip; defect of the code: `int` loop counter): for every word
size in {1,2,4,8} and every buffer padded to `word_count * word_size` bytes with at
most `INT_MAX` words, reading back the body that `chex_dump_words` writes with
word prefix "0x" and separator "," (drop line breaks, split on ",", strip "0x",
parse hexadecimal, store each number as a word of `word_size` bytes in host byte
order) gives the padded buffer exactly. For a buffer of 2^31 + 1 two-byte words
the counter `int i` overflows, which is undefined, and there is no complete body
to read back; `chex_dump_long` counts with `size_t`. -/
theorem chex_dump_words_round_trip (e : Endian) (info : Chex_Dump) (buf : List Byte)
    (in_size : Nat)
    (hws : info.word_size = 1 ∨ info.word_size = 2 ∨ info.word_size = 4 ∨ info.word_size = 8)
    (hpad : buf.length = ceil_div in_size info.word_size.toNat * info.word_size.toNat)
    (hcnt : ceil_div in_size info.word_size.toNat ≤ INT_MAX) :
    (chex_dump_words e info (some buf) in_size "" "0x" ",").bind
        (decode_body e info.word_size.toNat)
      = some buf
    ∧ (chex_dump_words e (Chex_Dump.mk "FOO" [] 2)
        (some (List.replicate 4294967298 (0 : Byte))) 4294967298 "" "0x" ",").bind
          (decode_body e 2)
      = none := by
  refine ⟨?_, by
    rw [chex_dump_words_overflow e _ _ _ "" "0x" "," 2147483649 (by decide) (by decide)]
    rfl⟩
  rw [chex_dump_words_eq e info buf in_size "" "0x" "," hws (le_of_eq hpad.symm) hcnt,
    String.empty_append, Option.some_bind]
  unfold decode_body
  simp only []
  rw [filter_tokens_text,
    split_commas_flatMap
      (fun i => '0' :: 'x'
        :: (fmt_hex (2 * info.word_size.toNat) (word_at e buf info.word_size.toNat i)).data)
      (fun i h => by
        simp only [List.mem_cons] at h
        rcases h with h | h | h
        · exact absurd h (by decide)
        · exact absurd h (by decide)
        · exact comma_not_lower_hex (fmt_hex_lower _ _ _ h)),
    decode_tokens_pieces (word_at e buf info.word_size.toNat), Option.map_some',
    store_words_chunks e buf _ _ (fun i hi => by
      rw [List.mem_range] at hi
      rw [hpad]
      exact Nat.mul_le_mul_right _ hi),
    chunks_flatten, ← hpad, List.take_length]

/-- Instance of C4: 6 bytes padded to 8, as two 4-byte words, on a big-endian host. -/
theorem chex_dump_words_round_trip_witness :
    ((4 : Int) = 1 ∨ (4 : Int) = 2 ∨ (4 : Int) = 4 ∨ (4 : Int) = 8)
    ∧ ([0xDE, 0xAD, 0xBE, 0xEF, 0x01, 0x0A, 0, 0] : List Byte).length
        = ceil_div 6 (4 : Int).toNat * (4 : Int).toNat
    ∧ ceil_div 6 (4 : Int).toNat ≤ INT_MAX
    ∧ chex_dump_words Endian.big (Chex_Dump.mk "FOO" [] 4)
        (some [0xDE, 0xAD, 0xBE, 0xEF, 0x01, 0x0A, 0, 0]) 6 "" "0x" ","
      = some "0xdeadbeef,0x010a0000,"
    ∧ (chex_dump_words Endian.big (Chex_Dump.mk "FOO" [] 4)
        (some [0xDE, 0xAD, 0xBE, 0xEF, 0x01, 0x0A, 0, 0]) 6 "" "0x" ",").bind
          (decode_body Endian.big (4 : Int).toNat)
      = some [0xDE, 0xAD, 0xBE, 0xEF, 0x01, 0x0A, 0, 0] :=
  ⟨by decide, by decide, by decide, by decide,
    (chex_dump_words_round_trip Endian.big (Chex_Dump.mk "FOO" [] 4)
      [0xDE, 0xAD, 0xBE, 0xEF, 0x01, 0x0A, 0, 0] 6 (by decide) (by decide) (by decide)).1⟩

/-- Claim C13: `chex_dump` selects exactly one renderer: for the formats LONG,
C_EXTERN_HEADER, C_SOURCE, C_STATIC, ZIG its output is that of `chex_dump_long`,
`chex_dump_c_extern`, `chex_dump_c_source`, `chex_dump_c_static`, `chex_dump_zig`
on the same arguments, and for every format value `≥ CHEX_FORMAT__COUNT` it
writes nothing. -/
theorem chex_dump_dispatch (e : Endian) (info : Chex_Dump) (mem : Option (List Byte))
    (in_size : Nat) (out : FILE) (format : Chex_Format)
    (hfmt : CHEX_FORMAT__COUNT ≤ format) :
    chex_dump e info mem in_size out CHEX_FORMAT_LONG = chex_dump_long info mem in_size out
    ∧ chex_dump e info mem in_size out CHEX_FORMAT_C_EXTERN_HEADER
        = chex_dump_c_extern info mem in_size out
    ∧ chex_dump e info mem in_size out CHEX_FORMAT_C_SOURCE
        = chex_dump_c_source e info mem in_size out
    ∧ chex_dump e info mem in_size out CHEX_FORMAT_C_STATIC
        = chex_dump_c_static e info mem in_size out
    ∧ chex_dump e info mem in_size out CHEX_FORMAT_ZIG = chex_dump_zig e info mem in_size out
    ∧ chex_dump e info mem in_size out format = some out := by
  refine ⟨rfl, rfl, rfl, rfl, rfl, ?_⟩
  unfold chex_dump
  rw [if_neg (Nat.not_lt.mpr hfmt)]

/-- Instance of C13: format value 7 is outside the known set and writes nothing. -/
theorem chex_dump_dispatch_witness :
    CHEX_FORMAT__COUNT ≤ 7
    ∧ chex_dump Endian.little (Chex_Dump.mk "FOO" [] 1) (some [1, 2]) 2 "" 7 = some "" :=
  ⟨by decide,
    (chex_dump_dispatch Endian.little (Chex_Dump.mk "FOO" [] 1) (some [1, 2]) 2 "" 7
      (by decide)).2.2.2.2.2⟩

/-- Claim C14: `chex_dump_long` ignores `word_size` (and `basename`): two requests
give the same output on the same input pointer and `in_size`; the input is
processed one byte at a time, each of the `in_size` bytes printed with `%x`. -/
theorem chex_dump_long_ignores_word_size (info1 info2 : Chex_Dump)
    (mem : Option (List Byte)) (buf : List Byte) (in_size : Nat) (out : FILE)
    (hsize : in_size ≤ buf.length) :
    chex_dump_long info1 mem in_size out = chex_dump_long info2 mem in_size out
    ∧ chex_dump_long info1 (some buf) in_size out
        = some (out ++ concat ((buf.take in_size).map (fun b => fmt_hex 0 b.val))) := by
  refine ⟨rfl, ?_⟩
  unfold chex_dump_long
  rw [long_loop_eq buf in_size 0 out (by omega), List.drop_zero]

/-- Instance of C14: the bytes DE AD BE EF under word sizes 1 and 8. -/
theorem chex_dump_long_ignores_word_size_witness :
    4 ≤ ([0xDE, 0xAD, 0xBE, 0xEF] : List Byte).length
    ∧ chex_dump_long (Chex_Dump.mk "FOO" [] 1) (some [0xDE, 0xAD, 0xBE, 0xEF]) 4 ""
        = chex_dump_long (Chex_Dump.mk "BAR" [] 8) (some [0xDE, 0xAD, 0xBE, 0xEF]) 4 ""
    ∧ chex_dump_long (Chex_Dump.mk "FOO" [] 1) (some [0xDE, 0xAD, 0xBE, 0xEF]) 4 ""
        = some "deadbeef" :=
  ⟨by decide,
    (chex_dump_long_ignores_word_size (Chex_Dump.mk "FOO" [] 1) (Chex_Dump.mk "BAR" [] 8)
      (some [0xDE, 0xAD, 0xBE, 0xEF]) [0xDE, 0xAD, 0xBE, 0xEF] 4 "" (by decide)).1,
    (chex_dump_long_ignores_word_size (Chex_Dump.mk "FOO" [] 1) (Chex_Dump.mk "BAR" [] 8)
      (some [0xDE, 0xAD, 0xBE, 0xEF]) [0xDE, 0xAD, 0xBE, 0xEF] 4 "" (by decide)).2.trans
      (by decide)⟩

/-- Claim C15: rendering is a function of basename, word size, buffer, `in_size`
and format alone: two calls of `chex_dump` with these values equal give the same
output whatever the two `options` mappings are; no renderer reads `options`. -/
theorem chex_dump_ignores_options (e : Endian) (basename : String) (word_size : Int)
    (options1 options2 : List Chex_Option) (mem : Option (List Byte)) (in_size : Nat)
    (out : FILE) (format : Chex_Format) :
    chex_dump e (Chex_Dump.mk basename options1 word_size) mem in_size out format
      = chex_dump e (Chex_Dump.mk basename options2 word_size) mem in_size out format := by
  unfold chex_dump CHEX_FORMAT__HOOKS
  split_ifs <;> rfl

/-- Claim C11: mutual consistency of the envelopes. For every word size `≥ 1`
(valid or not) and every `in_size`, the element width printed by
`chex_dump_c_extern` and `chex_dump_zig` (`chex__get_word_bits`), the one printed
by `chex_dump_c_source` and `chex_dump_c_static`, and the width of the tokens of
`chex_dump_words` (4 bits per hex digit) are all the effective width:
`word_size * 8` bits for word sizes 1, 2, 4, 8 and 8 bits otherwise; and the array
length declared by the extern header is the one defined by the source. The three
array envelopes wrap whatever body `chex_dump_words` writes (and are undefined
exactly when it is); whenever that body is defined it is the text of the tokens
of the effective width, and it is defined for a buffer that holds the words when
there are at most `INT_MAX` of them. -/
theorem envelopes_mutually_consistent (e : Endian) (info : Chex_Dump)
    (mem : Option (List Byte)) (in_size : Nat) (out : FILE)
    (h1 : 1 ≤ info.word_size) (h2 : info.word_size < 2 ^ 31) :
    chex__get_word_bits (to_size_t info.word_size) = effective_bits info.word_size
    ∧ chex_dump_c_extern info mem in_size out
      = some (out
          ++ ("extern uint" ++ fmt_d (effective_bits info.word_size) ++ "_t " ++ info.basename
                ++ "[" ++ fmt_zu (ceil_div in_size info.word_size.toNat) ++ "];\n")
          ++ ("static const size_t " ++ info.basename ++ "_SIZE = " ++ fmt_zu in_size ++ ";\n"))
    ∧ chex_dump_zig e info mem in_size out
      = (chex_dump_words e info mem in_size "" "0x" ",").map (fun body =>
          out
          ++ ("const " ++ info.basename ++ " [" ++ fmt_zu in_size ++ "]u"
                ++ fmt_d (effective_bits info.word_size) ++ " = \x7b\n")
          ++ body ++ "\n\x7d;\n")
    ∧ chex_dump_c_source e info mem in_size out
      = (chex_dump_words e info mem in_size "" "0x" ",").map (fun body =>
          out
          ++ ("uint" ++ fmt_d (effective_bits info.word_size) ++ "_t " ++ info.basename
                ++ "[" ++ fmt_zu (ceil_div in_size info.word_size.toNat) ++ "] = \x7b\n")
          ++ body ++ "\n\x7d;\n")
    ∧ chex_dump_c_static e info mem in_size out
      = (chex_dump_words e info mem in_size "" "0x" ",").map (fun body =>
          out
          ++ ("static const size_t " ++ info.basename ++ "_SIZE = " ++ fmt_zu in_size ++ ";\n")
          ++ ("static const " ++ "uint" ++ fmt_d (effective_bits info.word_size) ++ "_t "
                ++ info.basename ++ "[" ++ fmt_zu (ceil_div in_size info.word_size.toNat)
                ++ "] = \x7b\n")
          ++ body ++ "\n\x7d;\n")
    ∧ (∀ (buf : List Byte) (body : String),
        chex_dump_words e info (some buf) in_size "" "0x" "," = some body →
        body = tokens_text e buf (effective_bytes info.word_size) "0x" ","
                (List.range (ceil_div in_size info.word_size.toNat)))
    ∧ (∀ buf : List Byte,
        ceil_div in_size info.word_size.toNat * effective_bytes info.word_size ≤ buf.length →
        ceil_div in_size info.word_size.toNat ≤ INT_MAX →
        chex_dump_words e info (some buf) in_size "" "0x" ","
          = some (tokens_text e buf (effective_bytes info.word_size) "0x" ","
                (List.range (ceil_div in_size info.word_size.toNat))))
    ∧ (∀ (buf : List Byte) (i : Nat),
        (((4 * (fmt_hex (2 * effective_bytes info.word_size)
            (word_at e buf (effective_bytes info.word_size) i)).length : Nat) : Int))
          = effective_bits info.word_size) := by
  have hlo : -2 ^ 31 ≤ info.word_size := by omega
  obtain ⟨t0, _, _, _, tn⟩ := to_size_t_int_range info.word_size hlo h2
  have hW : 1 ≤ to_size_t info.word_size := t0 (by omega)
  have hsz : to_size_t info.word_size = info.word_size.toNat := tn (by omega)
  have hext := chex_dump_c_extern_eq_gen info mem in_size out hlo h2 hW
  have hzig := chex_dump_zig_rel e info mem in_size out hlo h2
  have hsrc := chex_dump_c__any_rel e info mem in_size out "" hW
  have hsta := chex_dump_c__any_rel e info mem in_size
    (out ++ ("static const size_t " ++ info.basename ++ "_SIZE = " ++ fmt_zu in_size ++ ";\n"))
    "static const " hW
  rw [hsz] at hext hsrc hsta
  refine ⟨get_word_bits_eq _ hlo h2, hext, hzig, hsrc, hsta, ?_, ?_, ?_⟩
  · intro buf body hb
    have h := chex_dump_words_some_eq e info buf in_size "" body "0x" "," hW hb
    rw [String.empty_append, hsz] at h
    exact h
  · intro buf hpad hcnt
    have h := chex_dump_words_eq_gen e info buf in_size "" "0x" "," hW
      (by rw [hsz]; exact hpad) (by rw [hsz]; exact hcnt)
    rw [String.empty_append, hsz] at h
    exact h
  · intro buf i
    obtain ⟨c8, c4, c2, c1⟩ := effective_bytes_cases info.word_size
    obtain ⟨b8, b4, b2, b1⟩ := effective_bits_cases info.word_size
    have hbytes : 0 < effective_bytes info.word_size
        ∧ ((8 * effective_bytes info.word_size : Nat) : Int)
          = effective_bits info.word_size := by
      by_cases h8 : info.word_size = 8
      · rw [c8 h8, b8 h8]; decide
      · by_cases h4 : info.word_size = 4
        · rw [c4 h4, b4 h4]; decide
        · by_cases h2 : info.word_size = 2
          · rw [c2 h2, b2 h2]; decide
          · rw [c1 h8 h4 h2, b1 h8 h4 h2]; decide
    rw [fmt_hex_length _ _ (by omega) (word_at_lt e buf _ i), ← hbytes.2]
    congr 1
    omega

/-- Instance of C11: word size 3 (invalid), 6 bytes: two `uint8_t` elements in
both the extern declaration and the source definition. -/
theorem envelopes_mutually_consistent_witness :
    (1 : Int) ≤ 3 ∧ (3 : Int) < 2 ^ 31
    ∧ chex_dump_c_extern (Chex_Dump.mk "FOO" [] 3) (some [1, 2, 3, 4, 5, 6]) 6 ""
        = some "extern uint8_t FOO[2];\nstatic const size_t FOO_SIZE = 6;\n"
    ∧ chex_dump_c_source Endian.little (Chex_Dump.mk "FOO" [] 3) (some [1, 2, 3, 4, 5, 6]) 6 ""
        = some "uint8_t FOO[2] = \x7b\n0x01,0x02,\n\x7d;\n" :=
  ⟨by decide, by decide,
    (envelopes_mutually_consistent Endian.little (Chex_Dump.mk "FOO" [] 3)
      (some [1, 2, 3, 4, 5, 6]) 6 "" (by decide) (by decide)).2.1.trans (by decide),
    (envelopes_mutually_consistent Endian.little (Chex_Dump.mk "FOO" [] 3)
      (some [1, 2, 3, 4, 5, 6]) 6 "" (by decide) (by decide)).2.2.2.1.trans (by decide)⟩

/-- Claim C12 as stated fails: with word size 3 the renderers reached through
`chex_dump` report no error and render byte-width output (`uint8_t`, `u8`,
two-digit tokens). -/
theorem chex_dump_invalid_word_size_renders_bytes :
    chex_dump Endian.little (Chex_Dump.mk "FOO" [] 3) (some [1, 2, 3, 4, 5, 6]) 6 ""
        CHEX_FORMAT_C_SOURCE
      = some "uint8_t FOO[2] = \x7b\n0x01,0x02,\n\x7d;\n"
    ∧ chex_dump Endian.little (Chex_Dump.mk "FOO" [] 3) (some [1, 2, 3, 4, 5, 6]) 6 ""
        CHEX_FORMAT_ZIG
      = some "const FOO [6]u8 = \x7b\n0x01,0x02,\n\x7d;\n"
    ∧ chex_dump Endian.little (Chex_Dump.mk "FOO" [] 3) none 6 "" CHEX_FORMAT_C_EXTERN_HEADER
      = some "extern uint8_t FOO[2];\nstatic const size_t FOO_SIZE = 6;\n" := by
  refine ⟨by decide, by decide, by decide⟩

/-- Claim C12, amended: for every nonzero `int` word size outside {1,2,4,8} (e.g.
3) and every buffer that holds the `ceil(in_size / word_size)` bytes read, at most
`INT_MAX` of them, every renderer reached through `chex_dump` reports no error
and renders byte-width output: the C envelopes declare `uint8_t` elements, the Zig
envelope `u8`, the body has one two-digit token for each of the first
`ceil(in_size / word_size)` bytes of the buffer, and LONG is rendered as for any
other word size. -/
theorem chex_dump_invalid_word_size_falls_back (e : Endian) (info : Chex_Dump)
    (mem : Option (List Byte)) (buf : List Byte) (in_size : Nat) (out : FILE)
    (hinv : info.word_size ≠ 1 ∧ info.word_size ≠ 2 ∧ info.word_size ≠ 4 ∧ info.word_size ≠ 8)
    (hne : info.word_size ≠ 0)
    (hlo : -2 ^ 31 ≤ info.word_size) (hhi : info.word_size < 2 ^ 31)
    (hpad : ceil_div in_size (to_size_t info.word_size) ≤ buf.length)
    (hcnt : ceil_div in_size (to_size_t info.word_size) ≤ INT_MAX) :
    chex_dump e info (some buf) in_size out CHEX_FORMAT_C_SOURCE
      = some (out
          ++ ("uint8_t " ++ info.basename ++ "["
                ++ fmt_zu (ceil_div in_size (to_size_t info.word_size)) ++ "] = \x7b\n")
          ++ tokens_text e buf 1 "0x" "," (List.range (ceil_div in_size (to_size_t info.word_size)))
          ++ "\n\x7d;\n")
    ∧ chex_dump e info (some buf) in_size out CHEX_FORMAT_C_STATIC
      = some (out
          ++ ("static const size_t " ++ info.basename ++ "_SIZE = " ++ fmt_zu in_size ++ ";\n")
          ++ ("static const uint8_t " ++ info.basename ++ "["
                ++ fmt_zu (ceil_div in_size (to_size_t info.word_size)) ++ "] = \x7b\n")
          ++ tokens_text e buf 1 "0x" "," (List.range (ceil_div in_size (to_size_t info.word_size)))
          ++ "\n\x7d;\n")
    ∧ chex_dump e info (some buf) in_size out CHEX_FORMAT_ZIG
      = some (out
          ++ ("const " ++ info.basename ++ " [" ++ fmt_zu in_size ++ "]u8 = \x7b\n")
          ++ tokens_text e buf 1 "0x" "," (List.range (ceil_div in_size (to_size_t info.word_size)))
          ++ "\n\x7d;\n")
    ∧ chex_dump e info mem in_size out CHEX_FORMAT_C_EXTERN_HEADER
      = some (out
          ++ ("extern uint8_t " ++ info.basename ++ "["
                ++ fmt_zu (ceil_div in_size (to_size_t info.word_size)) ++ "];\n")
          ++ ("static const size_t " ++ info.basename ++ "_SIZE = " ++ fmt_zu in_size ++ ";\n"))
    ∧ chex_dump e info mem in_size out CHEX_FORMAT_LONG
      = chex_dump_long (Chex_Dump.mk info.basename info.options 1) mem in_size out
    ∧ (∀ i : Nat, (fmt_hex (2 * 1) (word_at e buf 1 i)).length = 2) := by
  obtain ⟨n1, n2, n4, n8⟩ := hinv
  obtain ⟨t0, _, _, _, _⟩ := to_size_t_int_range info.word_size hlo hhi
  have hW : 1 ≤ to_size_t info.word_size := t0 hne
  have hby : effective_bytes info.word_size = 1 :=
    (effective_bytes_cases info.word_size).2.2.2 n8 n4 n2
  have hbi : effective_bits info.word_size = 8 :=
    (effective_bits_cases info.word_size).2.2.2 n8 n4 n2
  have hpad2 : ceil_div in_size (to_size_t info.word_size) * effective_bytes info.word_size
      ≤ buf.length := by rw [hby, Nat.mul_one]; exact hpad
  have hext := chex_dump_c_extern_eq_gen info mem in_size out hlo hhi hW
  have hzig := chex_dump_zig_eq_gen e info buf in_size out hlo hhi hW hpad2 hcnt
  have hsrc := chex_dump_c__any_eq_gen e info buf in_size out "" hW hpad2 hcnt
  have hsta := chex_dump_c__any_eq_gen e info buf in_size
    (out ++ ("static const size_t " ++ info.basename ++ "_SIZE = " ++ fmt_zu in_size ++ ";\n"))
    "static const " hW hpad2 hcnt
  rw [hby, hbi] at hzig hsrc hsta
  rw [hbi] at hext
  refine ⟨hsrc.trans ?_, hsta.trans ?_, hzig.trans ?_, hext.trans ?_, rfl,
    fun i => fmt_hex_length _ _ (by decide) (word_at_lt e buf 1 i)⟩ <;>
    simp only [fmt_d, String.append_assoc, String.empty_append] <;> rfl

/-- Instance of amended C12: word size 3, six bytes, C_SOURCE. -/
theorem chex_dump_invalid_word_size_falls_back_witness :
    ((3 : Int) ≠ 1 ∧ (3 : Int) ≠ 2 ∧ (3 : Int) ≠ 4 ∧ (3 : Int) ≠ 8)
    ∧ (3 : Int) ≠ 0 ∧ -2 ^ 31 ≤ (3 : Int) ∧ (3 : Int) < 2 ^ 31
    ∧ ceil_div 6 (to_size_t 3) ≤ ([1, 2, 3, 4, 5, 6] : List Byte).length
    ∧ ceil_div 6 (to_size_t 3) ≤ INT_MAX
    ∧ chex_dump Endian.big (Chex_Dump.mk "FOO" [] 3) (some [1, 2, 3, 4, 5, 6]) 6 ""
        CHEX_FORMAT_C_SOURCE
      = some "uint8_t FOO[2] = \x7b\n0x01,0x02,\n\x7d;\n" :=
  ⟨by decide, by decide, by decide, by decide, by decide, by decide,
    (chex_dump_invalid_word_size_falls_back Endian.big (Chex_Dump.mk "FOO" [] 3) none
      [1, 2, 3, 4, 5, 6] 6 "" (by decide) (by decide) (by decide) (by decide)
      (by decide) (by decide)).1.trans (by decide)⟩

/-- Claim C16: the format name table holds exactly the five names "long",
"c-extern", "c-source", "c-static", "zig" in this order, pairwise distinct, at the
indices of LONG, C_EXTERN_HEADER, C_SOURCE, C_STATIC, ZIG; the name lookup of
`main` maps each name to the format whose renderer `chex_dump` invokes and every
other string to `CHEX_FORMAT__COUNT`, which `main` rejects with
"Unrecognised format" and return value 1. -/
theorem format_names_lookup (s : String) (e : Endian) (info : Chex_Dump)
    (mem : Option (List Byte)) (in_size : Nat) (out : FILE)
    (stat : String → Option Nat) (fopen : String → Option (List Byte)) (heap : Nat → Byte)
    (file : String) (rest : List String) (word_size : Int) (caps : Bool)
    (args_pfx args_name : Option String)
    (hs : s ∉ ["long", "c-extern", "c-source", "c-static", "zig"]) :
    (List.range CHEX_FORMAT__COUNT).map CHEX_FORMAT__NAMES
      = [some "long", some "c-extern", some "c-source", some "c-static", some "zig"]
    ∧ ["long", "c-extern", "c-source", "c-static", "zig"].Nodup
    ∧ (CHEX_FORMAT__NAMES CHEX_FORMAT_LONG = some "long"
        ∧ CHEX_FORMAT__NAMES CHEX_FORMAT_C_EXTERN_HEADER = some "c-extern"
        ∧ CHEX_FORMAT__NAMES CHEX_FORMAT_C_SOURCE = some "c-source"
        ∧ CHEX_FORMAT__NAMES CHEX_FORMAT_C_STATIC = some "c-static"
        ∧ CHEX_FORMAT__NAMES CHEX_FORMAT_ZIG = some "zig")
    ∧ (find_format "long" = CHEX_FORMAT_LONG
        ∧ find_format "c-extern" = CHEX_FORMAT_C_EXTERN_HEADER
        ∧ find_format "c-source" = CHEX_FORMAT_C_SOURCE
        ∧ find_format "c-static" = CHEX_FORMAT_C_STATIC
        ∧ find_format "zig" = CHEX_FORMAT_ZIG)
    ∧ (chex_dump e info mem in_size out (find_format "long")
          = chex_dump_long info mem in_size out
        ∧ chex_dump e info mem in_size out (find_format "c-extern")
          = chex_dump_c_extern info mem in_size out
        ∧ chex_dump e info mem in_size out (find_format "c-source")
          = chex_dump_c_source e info mem in_size out
        ∧ chex_dump e info mem in_size out (find_format "c-static")
          = chex_dump_c_static e info mem in_size out
        ∧ chex_dump e info mem in_size out (find_format "zig")
          = chex_dump_zig e info mem in_size out)
    ∧ find_format s = CHEX_FORMAT__COUNT
    ∧ main_after_options stat fopen heap e
        (Cli_State.mk (s :: file :: rest) word_size caps args_pfx args_name)
      = some (Exit.mk ("Unrecognised format: " ++ s ++ "\n") [] 1) := by
  have hf := find_format_unknown s hs
  refine ⟨by decide, by decide, by decide, by decide, ⟨rfl, rfl, rfl, rfl, rfl⟩, hf, ?_⟩
  unfold main_after_options
  simp only [hf, if_true]

/-- Instance of C16: the format argument "hex" is not a format name. -/
theorem format_names_lookup_witness :
    "hex" ∉ ["long", "c-extern", "c-source", "c-static", "zig"]
    ∧ main libc_atoi false (fun _ => some 2) (fun _ => some [1, 2]) (fun _ => 0)
        Endian.little ["hex", "f.bin"]
      = some (Exit.mk "Unrecognised format: hex\n" [] 1) :=
  ⟨by decide,
    (format_names_lookup "hex" Endian.little (Chex_Dump.mk "FOO" [] 1) none 0 ""
      (fun _ => some 2) (fun _ => some [1, 2]) (fun _ => 0) "f.bin" [] 1 false none none
      (by decide)).2.2.2.2.2.2⟩

/-- Claim C17 (defect of the code): `main` stores the remainder `st_size % word_size`
in `padding_bytes`, not the distance to the padded size. For a file of 7 bytes and
word size 4 the allocation has 8 bytes and `memset` is asked to zero the 3 bytes
from offset 7, leaving the allocation; for 5 bytes and word size 4 only the byte at
offset 5 is zeroed and the padding bytes at offsets 6 and 7 keep the heap content
(here 0xAA). -/
theorem padding_bytes_is_remainder :
    pad_to_alignment 7 (to_size_t 4) = some 8
    ∧ padding_bytes 7 4 = 3
    ∧ prepare_buffer (fun _ => 0xAA) 7 4 = none
    ∧ pad_to_alignment 5 (to_size_t 4) = some 8
    ∧ padding_bytes 5 4 = 1
    ∧ prepare_buffer (fun _ => 0xAA) 5 4
        = some [0xAA, 0xAA, 0xAA, 0xAA, 0xAA, 0x00, 0xAA, 0xAA] := by
  refine ⟨by decide, by decide, by decide, by decide, by decide, by decide⟩

/-- Claim C18 (defect of the code): the test after `fopen` is inverted
(`if (infile)` where `if (!infile)` is meant). For the format c-source and a file
that opens, `main` reports "Failed to open input file for reading" and returns 1
without any output; when the open fails it goes on to `fread` from the NULL
stream, which is undefined. -/
theorem main_open_check_inverted :
    main libc_atoi false (fun _ => some 2) (fun _ => some [1, 2]) (fun _ => 0)
        Endian.little ["c-source", "f.bin"]
      = some (Exit.mk "" ["Failed to open input file for reading"] 1)
    ∧ main libc_atoi false (fun _ => some 2) (fun _ => none) (fun _ => 0)
        Endian.little ["c-source", "f.bin"]
      = none
    ∧ main libc_atoi false (fun _ => some 2) (fun _ => some [1, 2]) (fun _ => 0)
        Endian.little ["c-extern", "f.bin"]
      = some (Exit.mk "extern uint8_t f_bin[2];\nstatic const size_t f_bin_SIZE = 2;\n" [] 0) := by
  refine ⟨by decide, by decide, by decide⟩

/-- Claim C19: whenever option parsing completes without `main` returning, the
word size in the request is 1, 2, 4 or 8; it is 1 when no -wordsize argument is
given; a -wordsize argument whose `atoi` value is not 1, 2, 4 or 8 makes `main`
print "Unsupported word size" and return 1, and `main` returns at once with that
result, before any renderer is called. -/
theorem parse_options_word_size (atoi : String → Int) (caps0 : Bool) (args : List String)
    (st2 : Cli_State) (stat : String → Option Nat) (fopen : String → Option (List Byte))
    (heap : Nat → Byte) (e : Endian)
    (h : parse_options atoi args (Cli_State.mk args 1 caps0 none none)
      = Outcome.running st2) :
    (st2.word_size = 1 ∨ st2.word_size = 2 ∨ st2.word_size = 4 ∨ st2.word_size = 8)
    ∧ ("-wordsize" ∉ args → st2.word_size = 1)
    ∧ (∀ (v : String) (rest : List String) (st : Cli_State),
        (atoi v ≠ 1 ∧ atoi v ≠ 2 ∧ atoi v ≠ 4 ∧ atoi v ≠ 8) →
        parse_options atoi ("-wordsize" :: v :: rest) st
          = Outcome.returned (Exit.mk ("Unsupported word size " ++ v ++ "\n") [] 1))
    ∧ (∀ (r : Exit) (args2 : List String), 2 ≤ args2.length →
        parse_options atoi args2 (Cli_State.mk args2 1 caps0 none none) = Outcome.returned r →
        main atoi caps0 stat fopen heap e args2 = some r) := by
  refine ⟨parse_options_word_size_inv atoi args.length args _ st2 (le_refl _) (Or.inl rfl) h,
    fun hno => parse_options_default_inv atoi args.length args _ st2 (le_refl _) hno h, ?_, ?_⟩
  · intro v rest st hv
    unfold parse_options
    have d1 : ¬ ("-wordsize".data.head? ≠ some '-') := by decide
    have d2 : ¬ ("-wordsize" = "--help" ∨ "-wordsize" = "-h") := by decide
    rw [if_neg d1, if_neg d2, if_pos rfl]
    simp only []
    rw [if_pos ⟨hv.2.2.2, hv.2.2.1, hv.2.1, hv.1⟩]
  · intro r args2 hlen hr
    unfold main
    rw [if_neg (by omega), hr]

/-- Instance of C19: `-wordsize 4` before the format and the file name. -/
theorem parse_options_word_size_witness :
    parse_options libc_atoi ["-wordsize", "4", "c-extern", "f.bin"]
        (Cli_State.mk ["-wordsize", "4", "c-extern", "f.bin"] 1 false none none)
      = Outcome.running (Cli_State.mk ["c-extern", "f.bin"] 4 false none none)
    ∧ ((Cli_State.mk ["c-extern", "f.bin"] 4 false none none).word_size = 1
        ∨ (Cli_State.mk ["c-extern", "f.bin"] 4 false none none).word_size = 2
        ∨ (Cli_State.mk ["c-extern", "f.bin"] 4 false none none).word_size = 4
        ∨ (Cli_State.mk ["c-extern", "f.bin"] 4 false none none).word_size = 8) :=
  ⟨by decide,
    (parse_options_word_size libc_atoi false ["-wordsize", "4", "c-extern", "f.bin"]
      (Cli_State.mk ["c-extern", "f.bin"] 4 false none none)
      (fun _ => some 2) (fun _ => none) (fun _ => 0) Endian.little (by decide)).1⟩

end Chexdump
